import Mathlib

/-!
Verification of the froggi protocol library (`library/src/lib.rs`,
`library/src/markup/parse.rs`) against its specification.

Machine integers are modelled as `Nat`, with truncating casts written as
explicit `% 2^w`.  Fallible operations (Rust `assert!`, `Result`) are
modelled with `Option` and `Except`.  Recursive parsing loops carry an
explicit fuel parameter; `none` signals fuel exhaustion, which cannot occur
for the generous initial fuel chosen by the entry points.
-/

namespace Froggi

/-! ## Byte codec (`library/src/lib.rs`) -/

/-- `pub const FROGGI_VERSION: u8 = 0;` -/
def FROGGI_VERSION : Nat := 0

/-- `serialize_to_bytes`: serialize a usize into a little-endian pair of
bytes.  The Rust function asserts `bytes <= u16::MAX`; the assertion is
modelled as `none`.  `high` is `(bytes >> 8) as u8` (a truncating cast,
hence `% 256`), `low` is `bytes & 0xff`; the result tuple is `(low, high)`. -/
def serialize_to_bytes (bytes : Nat) : Option (Nat × Nat) :=
  if bytes ≤ 65535 then
    some (bytes &&& 0xff, (bytes >>> 8) % 256)
  else
    none

/-- `serialize_to_four_bytes`: serialize a usize into a little-endian
quartet of bytes, asserting `bytes <= u32::MAX`.  In the source
`a = ((bytes & 0xff_00_00_00) >> 24) as u8` and so on, and `d = bytes as u8`;
the result array is `[d, c, b, a]`. -/
def serialize_to_four_bytes (bytes : Nat) : Option (List Nat) :=
  if bytes ≤ 4294967295 then
    some [bytes % 256, ((bytes &&& 0x0000ff00) >>> 8) % 256,
          ((bytes &&& 0x00ff0000) >>> 16) % 256, ((bytes &&& 0xff000000) >>> 24) % 256]
  else
    none

/-- `deserialize_bytes`: deserialize a pair of bytes into a usize;
`assert_eq!(bytes.len(), 2)` is modelled as `none`.  The value is
`(high << 8) | low` with `low = bytes[0]`, `high = bytes[1]`. -/
def deserialize_bytes (bytes : List Nat) : Option Nat :=
  if h : bytes.length = 2 then
    some ((bytes[1] <<< 8) ||| bytes[0])
  else
    none

/-- `deserialize_four_bytes`: deserialize a quartet of bytes into a usize;
the value is `(bytes[3] << 24) | (bytes[2] << 16) | (bytes[1] << 8) | bytes[0]`. -/
def deserialize_four_bytes (bytes : List Nat) : Option Nat :=
  if h : bytes.length = 4 then
    some (((bytes[3] <<< 24) ||| (bytes[2] <<< 16)) ||| (bytes[1] <<< 8) ||| bytes[0])
  else
    none

/-! ## Tokens and errors (`library/src/lib.rs`, `library/src/markup/scan.rs`) -/

/-- The fixed set of token kinds of the FML scanner. -/
inductive TokenKind where
  | LeftParen
  | RightParen
  | LeftBrace
  | RightBrace
  | String
  | Identifier
  | Box
  | VBox
  | Text
  | Inline
  | Link
  | Anchor
  | Blob
  | ImplicitText
  | End
deriving DecidableEq, Repr

/-- A token: kind, source line, lexeme.  Lexemes of `String` tokens are the
literal as it appears in the source, including the quotes. -/
structure Token where
  kind : TokenKind
  line : Nat
  lexeme : String
deriving DecidableEq, Repr

/-- `Token::clone_lexeme`, used to build diagnostics. -/
def Token.cloneLexeme (t : Token) : String := t.lexeme

/-- `ScanError` from `library/src/lib.rs`. -/
inductive ScanError where
  | UnknownEscapeCode (code : Char)
  | UnterminatedString (start_line : Nat)
deriving DecidableEq, Repr

/-- `ParseError` from `library/src/lib.rs`. -/
inductive ParseError where
  | UnexpectedToken (expected : TokenKind) (got : String)
  | UnbalancedParentheses
  | ExpectedStyle (got : String)
  | ExpectedItem (got : String)
  | UnknownStyle (style : String)
  | RecursiveStyle (style : String)
  | IncorrectNumberFormat (num : String) (wanted : String)
deriving DecidableEq, Repr

/-- `ErrorKind` from `library/src/lib.rs`.  The payloads of `EncodingError`
(`str::Utf8Error`) and `IOError` (`io::Error`) are opaque host values and are
dropped in the model. -/
inductive ErrorKind where
  | EncodingError
  | RequestFormatError
  | IOError
  | ScanError (error : ScanError) (line : Nat)
  | ParseError (error : ParseError) (line : Nat)
deriving DecidableEq, Repr

/-- `FroggiError`: an error kind plus an optional breadcrumb message. -/
structure FroggiError where
  error : ErrorKind
  msg : Option String
deriving DecidableEq, Repr

/-- `FroggiError::new`. -/
def FroggiError.new (error : ErrorKind) : FroggiError := ⟨error, none⟩

/-- `FroggiError::kind`. -/
def FroggiError.kind (e : FroggiError) : ErrorKind := e.error

/-- `FroggiError::scan`. -/
def FroggiError.scan (error : ScanError) (line : Nat) : FroggiError :=
  ⟨.ScanError error line, none⟩

/-- `FroggiError::io`. -/
def FroggiError.io : FroggiError := ⟨.IOError, none⟩

/-- `FroggiError::parse`. -/
def FroggiError.parse (error : ParseError) (line : Nat) : FroggiError :=
  ⟨.ParseError error line, none⟩

/-- `AddMsg::msg` for `FroggiError` (named `addMsg` because `msg` is the
field name): appends `", {msg}"` to an existing message, or installs the
message if there is none. -/
def FroggiError.addMsg (e : FroggiError) (msg : String) : FroggiError :=
  match e.msg with
  | some message => ⟨e.error, some (message ++ ", " ++ msg)⟩
  | none => ⟨e.error, some msg⟩

/-- `AddMsg::msg_str` for `FroggiError`. -/
def FroggiError.addMsgStr (e : FroggiError) (msg : String) : FroggiError :=
  e.addMsg msg

/-- Whether an error is an `UnknownStyle` parse diagnostic (used to state
that `parse` never emits one). -/
def FroggiError.unknownStyleB (e : FroggiError) : Bool :=
  match e.error with
  | .ParseError (.UnknownStyle _) _ => true
  | _ => false

/-- `AddMsg::msg` for `Result<T, FroggiError>` (`map_err`). -/
def exceptMsg {α : Type} (r : Except FroggiError α) (m : String) :
    Except FroggiError α :=
  match r with
  | .error e => .error (e.addMsg m)
  | .ok v => .ok v

/-- `AddMsg::msg_str` for `Result<T, FroggiError>`. -/
def exceptMsgStr {α : Type} (r : Except FroggiError α) (m : String) :
    Except FroggiError α :=
  exceptMsg r m

/-! ## Scanner

Modelled from the spec: `library/src/markup/scan.rs` is not part of the
source tree, so the scanner is built from specification section 4.3: the
single-character token table, identifier characters (any non-whitespace,
non-delimiter, non-quote character), string literals with the four escape
sequences `\\`, `\"`, `\n`, `\t` (any other escaped character is
`UnknownEscapeCode`, EOF before the closing quote is `UnterminatedString`),
string lexemes kept verbatim including the quotes, an `End` token past the
input, and lines counted by `\n` anywhere in the source. -/

def isWhitespaceChar (c : Char) : Bool :=
  c == ' ' || c == '\t' || c == '\r' || c == '\n'

/-- The single-character token table from specification section 4.3. -/
def sigilKind (c : Char) : Option TokenKind :=
  if c == '(' then some .LeftParen
  else if c == ')' then some .RightParen
  else if c == '{' then some .LeftBrace
  else if c == '}' then some .RightBrace
  else if c == '^' then some .Link
  else if c == '&' then some .Blob
  else if c == '#' then some .Anchor
  else if c == '*' then some .Text
  else if c == '|' then some .VBox
  else if c == '%' then some .Inline
  else if c == '$' then some .Box
  else none

/-- An identifier character: non-whitespace, non-delimiter, non-quote. -/
def isIdentChar (c : Char) : Bool :=
  !(isWhitespaceChar c) && (sigilKind c).isNone && c != '"'

/-- A scanner position: remaining source characters and current line. -/
structure Scanner where
  rest : List Char
  line : Nat
deriving DecidableEq, Repr

/-- `Scanner::new`. -/
def Scanner.new (data : String) : Scanner := ⟨data.data, 1⟩

/-- Skip whitespace, counting lines at each newline. -/
def skipWhitespace : List Char → Nat → List Char × Nat
  | [], line => ([], line)
  | c :: r, line =>
    if isWhitespaceChar c then
      skipWhitespace r (if c = '\n' then line + 1 else line)
    else
      (c :: r, line)

/-- Scan the remainder of a string literal whose opening quote was at
`start_line` and has already been consumed; `acc` holds the scanned lexeme
characters in reverse.  Returns the token or scan error, the remaining
characters, and the current line. -/
def scanString (start_line : Nat) : Nat → List Char → List Char →
    (Except FroggiError Token) × List Char × Nat
  | line, acc, [] =>
    (.error (FroggiError.scan (.UnterminatedString start_line) start_line), [], line)
  | line, acc, '"' :: r =>
    (.ok ⟨.String, start_line, String.mk ('"' :: (acc.reverse ++ ['"']))⟩, r, line)
  | line, acc, '\\' :: c :: r =>
    if c = '\\' ∨ c = '"' ∨ c = 'n' ∨ c = 't' then
      scanString start_line line (c :: '\\' :: acc) r
    else
      (.error (FroggiError.scan (.UnknownEscapeCode c) line),
        r, if c = '\n' then line + 1 else line)
  | line, acc, ['\\'] =>
    (.error (FroggiError.scan (.UnterminatedString start_line) start_line), [], line)
  | line, acc, c :: r =>
    scanString start_line (if c = '\n' then line + 1 else line) (c :: acc) r

/-- `Scanner::next_token`: return and consume the next token.  Always also
returns the advanced scanner, including after a scan error. -/
def nextToken (sc : Scanner) : (Except FroggiError Token) × Scanner :=
  let (rest, line) := skipWhitespace sc.rest sc.line
  match rest with
  | [] => (.ok ⟨.End, line, ""⟩, ⟨[], line⟩)
  | c :: r =>
    match sigilKind c with
    | some k => (.ok ⟨k, line, String.mk [c]⟩, ⟨r, line⟩)
    | none =>
      if c = '"' then
        let (res, r', line') := scanString line line [] r
        (res, ⟨r', line'⟩)
      else
        (.ok ⟨.Identifier, line, String.mk ((c :: r).takeWhile isIdentChar)⟩,
          ⟨(c :: r).dropWhile isIdentChar, line⟩)

/-- `Scanner::peek_token(0)`: the next token, without consuming. -/
def peekToken (sc : Scanner) : Except FroggiError Token :=
  (nextToken sc).1

/-! ## AST (`library/src/markup/parse.rs` imports these from its parent
module; the variant used by the parser has `InlineStyle::WithoutArg` /
`InlineStyle::WithArg`, `PageStyle { selector, styles }` and
`Page { page_styles, items }`). -/

/-- A nullary inline style occurrence: `WithoutArg { name }`. -/
structure WithoutArg where
  name : Token
deriving DecidableEq, Repr

/-- A unary inline style occurrence: `WithArg { name, arg }`. -/
structure WithArg where
  name : Token
  arg : Token
deriving DecidableEq, Repr

/-- An inline style as recorded by the parser. -/
inductive InlineStyle where
  | WithoutArg (v : WithoutArg)
  | WithArg (v : WithArg)
deriving DecidableEq, Repr

/-- One page-style rule: a selector token and its styles. -/
structure PageStyle where
  selector : Token
  styles : List InlineStyle
deriving DecidableEq, Repr

mutual
/-- `PageItem { builtin, inline_styles, payload }`. -/
inductive PageItem : Type where
  | mk (builtin : Token) (inline_styles : List InlineStyle) (payload : ItemPayload)

/-- `ItemPayload` from the markup module. -/
inductive ItemPayload : Type where
  | Text (text : List Token)
  | Children (children : List PageItem) (line : Nat)
  | Link (link : Token) (text : List Token)
  | Blob (name : Token) (alt : List Token)
  | Anchor (anchor : Token)
end

/-- Field accessor for `PageItem.builtin`. -/
def PageItem.builtin : PageItem → Token
  | .mk b _ _ => b

/-- Field accessor for `PageItem.inline_styles`. -/
def PageItem.inline_styles : PageItem → List InlineStyle
  | .mk _ s _ => s

/-- Field accessor for `PageItem.payload`. -/
def PageItem.payload : PageItem → ItemPayload
  | .mk _ _ p => p

/-- `Page { page_styles, items }` as produced by `parse`. -/
structure Page where
  page_styles : List PageStyle
  items : List PageItem

/-! ## Parser (`library/src/markup/parse.rs`)

Each function threads the scanner explicitly (the Rust code passes
`&mut Scanner`); on an error the advanced scanner is still returned, since
the caller's scanner keeps the position the failure left it at.  Loops and
the mutual `parse_item` recursion carry fuel. -/

/-- `consume`: take the next token, requiring the given kind. -/
def consume (sc : Scanner) (kind : TokenKind) :
    (Except FroggiError Token) × Scanner :=
  match nextToken sc with
  | (.error e, sc') => (.error e, sc')
  | (.ok token, sc') =>
    if token.kind = kind then
      (.ok token, sc')
    else
      (.error (FroggiError.parse (.UnexpectedToken kind token.cloneLexeme) token.line), sc')

/-- `consume_selector`: take the next token, requiring a selector kind
(`Identifier`, `Link`, `Box`, `VBox` or `Text`). -/
def consume_selector (sc : Scanner) : (Except FroggiError Token) × Scanner :=
  match nextToken sc with
  | (.error e, sc') => (.error e, sc')
  | (.ok token, sc') =>
    if token.kind = .Identifier ∨ token.kind = .Link ∨ token.kind = .Box ∨
        token.kind = .VBox ∨ token.kind = .Text then
      (.ok token, sc')
    else
      (.error ((FroggiError.parse (.UnexpectedToken .Identifier token.cloneLexeme)
          token.line).addMsgStr
          "selectors must be either built-in items or links, or user-defined selectors"),
        sc')

/-- The `while` loop of `parse_inline_styles`: collect styles until the
closing right brace (which is left unconsumed). -/
def parse_inline_styles_loop : Nat → Scanner → List InlineStyle →
    Option ((Except FroggiError (List InlineStyle)) × Scanner)
  | 0, _, _ => none
  | fuel + 1, sc, acc =>
    match peekToken sc with
    | .error e => some (.error e, sc)
    | .ok t =>
      if t.kind = .RightBrace then
        some (.ok acc, sc)
      else
        match nextToken sc with
        | (.error e, sc1) => some (.error e, sc1)
        | (.ok token, sc1) =>
          if token.kind = .Identifier then
            parse_inline_styles_loop fuel sc1 (acc ++ [.WithoutArg ⟨token⟩])
          else if token.kind = .LeftParen then
            match consume sc1 .Identifier with
            | (.error e, sc2) =>
              some (.error (e.addMsgStr "expected some built-in style name"), sc2)
            | (.ok name, sc2) =>
              match consume sc2 .String with
              | (.error e, sc3) =>
                some (.error (e.addMsgStr "expected an argument to the built-in style"), sc3)
              | (.ok arg, sc3) =>
                match consume sc3 .RightParen with
                | (.error e, sc4) =>
                  some (.error (e.addMsgStr "styles only take one argument"), sc4)
                | (.ok _, sc4) =>
                  parse_inline_styles_loop fuel sc4 (acc ++ [.WithArg ⟨name, arg⟩])
          else
            some (.error ((FroggiError.parse (.ExpectedStyle token.cloneLexeme)
                token.line).addMsgStr
                "expected a style rule in the list of inline style rules"), sc1)

/-- `parse_inline_styles`: an optional brace-delimited list of styles. -/
def parse_inline_styles (fuel : Nat) (sc : Scanner) :
    Option ((Except FroggiError (List InlineStyle)) × Scanner) :=
  match peekToken sc with
  | .error e => some (.error e, sc)
  | .ok t =>
    if t.kind = .LeftBrace then
      match consume sc .LeftBrace with
      | (.error e, sc1) => some (.error e, sc1)
      | (.ok _, sc1) =>
        match parse_inline_styles_loop fuel sc1 [] with
        | none => none
        | some (.error e, sc2) => some (.error e, sc2)
        | some (.ok styles, sc2) =>
          match consume sc2 .RightBrace with
          | (.error e, sc3) =>
            some (.error (e.addMsgStr "expected the end of the inline style"), sc3)
          | (.ok _, sc3) => some (.ok styles, sc3)
    else
      some (.ok [], sc)

/-- The `while` loop of `collect_text`: `String` tokens until the closing
right paren (left unconsumed). -/
def collect_text_loop : Nat → Scanner → List Token →
    Option ((Except FroggiError (List Token)) × Scanner)
  | 0, _, _ => none
  | fuel + 1, sc, acc =>
    match peekToken sc with
    | .error e => some (.error e, sc)
    | .ok t =>
      if t.kind = .RightParen then
        some (.ok acc, sc)
      else
        match consume sc .String with
        | (.error e, sc1) => some (.error e, sc1)
        | (.ok s, sc1) => collect_text_loop fuel sc1 (acc ++ [s])

/-- `collect_text`. -/
def collect_text (fuel : Nat) (sc : Scanner) :
    Option ((Except FroggiError (List Token)) × Scanner) :=
  collect_text_loop fuel sc []

/-- `parse_anchor`: `#`, then exactly one `String`. -/
def parse_anchor (sc : Scanner) : (Except FroggiError PageItem) × Scanner :=
  match consume sc .Anchor with
  | (.error e, sc1) => (.error e, sc1)
  | (.ok builtin, sc1) =>
    match consume sc1 .String with
    | (.error e, sc2) => (.error e, sc2)
    | (.ok anchor, sc2) => (.ok (.mk builtin [] (.Anchor anchor)), sc2)

/-- `parse_blob`: `&`, a `String` name, optional inline styles, alt text. -/
def parse_blob (fuel : Nat) (sc : Scanner) :
    Option ((Except FroggiError PageItem) × Scanner) :=
  match consume sc .Blob with
  | (.error e, sc1) => some (.error e, sc1)
  | (.ok builtin, sc1) =>
    match consume sc1 .String with
    | (.error e, sc2) => some (.error e, sc2)
    | (.ok name, sc2) =>
      match parse_inline_styles fuel sc2 with
      | none => none
      | some (.error e, sc3) => some (.error e, sc3)
      | some (.ok inline_styles, sc3) =>
        match collect_text fuel sc3 with
        | none => none
        | some (.error e, sc4) => some (.error e, sc4)
        | some (.ok alt, sc4) =>
          some (.ok (.mk builtin inline_styles (.Blob name alt)), sc4)

/-- `parse_link`: `^`, a `String` target, optional inline styles, text. -/
def parse_link (fuel : Nat) (sc : Scanner) :
    Option ((Except FroggiError PageItem) × Scanner) :=
  match consume sc .Link with
  | (.error e, sc1) => some (.error e, sc1)
  | (.ok builtin, sc1) =>
    match consume sc1 .String with
    | (.error e, sc2) => some (.error e, sc2)
    | (.ok link, sc2) =>
      match parse_inline_styles fuel sc2 with
      | none => none
      | some (.error e, sc3) => some (.error e, sc3)
      | some (.ok inline_styles, sc3) =>
        match collect_text fuel sc3 with
        | none => none
        | some (.error e, sc4) => some (.error e, sc4)
        | some (.ok text, sc4) =>
          some (.ok (.mk builtin inline_styles (.Link link text)), sc4)

/-- `parse_text`: `*`, optional inline styles, text. -/
def parse_text (fuel : Nat) (sc : Scanner) :
    Option ((Except FroggiError PageItem) × Scanner) :=
  match consume sc .Text with
  | (.error e, sc1) => some (.error e, sc1)
  | (.ok builtin, sc1) =>
    match parse_inline_styles fuel sc1 with
    | none => none
    | some (.error e, sc2) => some (.error e, sc2)
    | some (.ok inline_styles, sc2) =>
      match collect_text fuel sc2 with
      | none => none
      | some (.error e, sc3) => some (.error e, sc3)
      | some (.ok text, sc3) =>
        some (.ok (.mk builtin inline_styles (.Text text)), sc3)

/-- `parse_implicit_text`: synthesize a builtin token of kind `ImplicitText`
at the peeked token's line with an empty lexeme, then parse like text. -/
def parse_implicit_text (fuel : Nat) (sc : Scanner) :
    Option ((Except FroggiError PageItem) × Scanner) :=
  match peekToken sc with
  | .error e => some (.error e, sc)
  | .ok t =>
    match parse_inline_styles fuel sc with
    | none => none
    | some (.error e, sc1) => some (.error e, sc1)
    | some (.ok inline_styles, sc1) =>
      match collect_text fuel sc1 with
      | none => none
      | some (.error e, sc2) => some (.error e, sc2)
      | some (.ok text, sc2) =>
        some (.ok (.mk ⟨.ImplicitText, t.line, ""⟩ inline_styles (.Text text)), sc2)

mutual
/-- `parse_item`: a parenthesized page item. -/
def parse_item : Nat → Scanner → Option ((Except FroggiError PageItem) × Scanner)
  | 0, _ => none
  | fuel + 1, sc =>
    match consume sc .LeftParen with
    | (.error e, sc1) => some (.error e, sc1)
    | (.ok left_paren, sc1) =>
      match peekToken sc1 with
      | .error e => some (.error e, sc1)
      | .ok t =>
        let inner : Option ((Except FroggiError PageItem) × Scanner) :=
          if t.kind = .Blob then parse_blob fuel sc1
          else if t.kind = .Link then parse_link fuel sc1
          else if t.kind = .Anchor then some (parse_anchor sc1)
          else if t.kind = .Text then parse_text fuel sc1
          else if t.kind = .VBox then parse_vbox fuel sc1
          else if t.kind = .Box then parse_box fuel sc1
          else parse_implicit_text fuel sc1
        match inner with
        | none => none
        | some (.error e, sc2) => some (.error e, sc2)
        | some (.ok item, sc2) =>
          match consume sc2 .RightParen with
          | (.error e, sc3) =>
            some (.error (e.addMsg
              ("unbalanced parens starting on line " ++ toString left_paren.line)), sc3)
          | (.ok _, sc3) => some (.ok item, sc3)

/-- `parse_vbox`: `|`, optional inline styles, nested items. -/
def parse_vbox : Nat → Scanner → Option ((Except FroggiError PageItem) × Scanner)
  | 0, _ => none
  | fuel + 1, sc =>
    match consume sc .VBox with
    | (.error e, sc1) => some (.error e, sc1)
    | (.ok builtin, sc1) =>
      match parse_inline_styles fuel sc1 with
      | none => none
      | some (.error e, sc2) => some (.error e, sc2)
      | some (.ok inline_styles, sc2) =>
        match parse_children_loop fuel sc2 [] with
        | none => none
        | some (.error e, sc3) => some (.error e, sc3)
        | some (.ok children, sc3) =>
          some (.ok (.mk builtin inline_styles (.Children children builtin.line)), sc3)

/-- `parse_box`: `$`, optional inline styles, nested items. -/
def parse_box : Nat → Scanner → Option ((Except FroggiError PageItem) × Scanner)
  | 0, _ => none
  | fuel + 1, sc =>
    match consume sc .Box with
    | (.error e, sc1) => some (.error e, sc1)
    | (.ok builtin, sc1) =>
      match parse_inline_styles fuel sc1 with
      | none => none
      | some (.error e, sc2) => some (.error e, sc2)
      | some (.ok inline_styles, sc2) =>
        match parse_children_loop fuel sc2 [] with
        | none => none
        | some (.error e, sc3) => some (.error e, sc3)
        | some (.ok children, sc3) =>
          some (.ok (.mk builtin inline_styles (.Children children builtin.line)), sc3)

/-- The `while` loop shared by `parse_vbox` and `parse_box`: nested items
until the closing right paren (left unconsumed). -/
def parse_children_loop : Nat → Scanner → List PageItem →
    Option ((Except FroggiError (List PageItem)) × Scanner)
  | 0, _, _ => none
  | fuel + 1, sc, acc =>
    match peekToken sc with
    | .error e => some (.error e, sc)
    | .ok t =>
      if t.kind = .RightParen then
        some (.ok acc, sc)
      else
        match parse_item fuel sc with
        | none => none
        | some (.error e, sc1) => some (.error e, sc1)
        | some (.ok child, sc1) => parse_children_loop fuel sc1 (acc ++ [child])
end

/-- The inner `while` loop of `parse_page_styles`: styles of one rule until
the closing right paren (left unconsumed). -/
def parse_style_rule_loop : Nat → Scanner → List InlineStyle →
    Option ((Except FroggiError (List InlineStyle)) × Scanner)
  | 0, _, _ => none
  | fuel + 1, sc, acc =>
    match peekToken sc with
    | .error e => some (.error e, sc)
    | .ok t =>
      if t.kind = .RightParen then
        some (.ok acc, sc)
      else
        match nextToken sc with
        | (.error e, sc1) => some (.error e, sc1)
        | (.ok token, sc1) =>
          if token.kind = .Identifier then
            parse_style_rule_loop fuel sc1 (acc ++ [.WithoutArg ⟨token⟩])
          else if token.kind = .LeftParen then
            match consume sc1 .Identifier with
            | (.error e, sc2) =>
              some (.error (e.addMsgStr "expected a built-in style rule"), sc2)
            | (.ok name, sc2) =>
              match consume sc2 .String with
              | (.error e, sc3) =>
                some (.error
                  (e.addMsgStr "expected an argument to the built-in style rule"), sc3)
              | (.ok arg, sc3) =>
                match consume sc3 .RightParen with
                | (.error e, sc4) =>
                  some (.error (e.addMsgStr "style rules only take one argument"), sc4)
                | (.ok _, sc4) =>
                  parse_style_rule_loop fuel sc4 (acc ++ [.WithArg ⟨name, arg⟩])
          else
            some (.error ((FroggiError.parse (.ExpectedStyle token.cloneLexeme)
                token.line).addMsgStr "expected a style rule"), sc1)

/-- The outer `while` loop of `parse_page_styles`: rules until the closing
right brace (left unconsumed). -/
def parse_page_styles_loop : Nat → Scanner → List PageStyle →
    Option ((Except FroggiError (List PageStyle)) × Scanner)
  | 0, _, _ => none
  | fuel + 1, sc, acc =>
    match peekToken sc with
    | .error e => some (.error e, sc)
    | .ok t =>
      if t.kind = .RightBrace then
        some (.ok acc, sc)
      else
        match consume sc .LeftParen with
        | (.error e, sc1) =>
          some (.error (e.addMsgStr "expected style rules inside page style item"), sc1)
        | (.ok _, sc1) =>
          match consume_selector sc1 with
          | (.error e, sc2) => some (.error e, sc2)
          | (.ok selector, sc2) =>
            match parse_style_rule_loop fuel sc2 [] with
            | none => none
            | some (.error e, sc3) => some (.error e, sc3)
            | some (.ok styles, sc3) =>
              match consume sc3 .RightParen with
              | (.error e, sc4) =>
                some (.error (e.addMsgStr "end of the style rule"), sc4)
              | (.ok _, sc4) =>
                parse_page_styles_loop fuel sc4 (acc ++ [⟨selector, styles⟩])

/-- `parse_page_styles`: consume the top-level page-style block. -/
def parse_page_styles (fuel : Nat) (sc : Scanner) :
    Option ((Except FroggiError (List PageStyle)) × Scanner) :=
  match consume sc .LeftBrace with
  | (.error e, sc1) => some (.error e, sc1)
  | (.ok left_brace, sc1) =>
    match parse_page_styles_loop fuel sc1 [] with
    | none => none
    | some (.error e, sc2) => some (.error e, sc2)
    | some (.ok page_styles, sc2) =>
      match consume sc2 .RightBrace with
      | (.error e, sc3) =>
        some (.error (e.addMsg
          ("unbalanced braces starting on line " ++ toString left_brace.line)), sc3)
      | (.ok _, sc3) => some (.ok page_styles, sc3)

/-- The top-level `while` loop of `parse`.  A scan error raised by a
top-level `peek_token(0)?` or `next_token()?` aborts the parse immediately
with `Err(vec![error])` via `From<FroggiError> for Vec<FroggiError>`. -/
def parse_loop : Nat → Scanner → List FroggiError → List PageStyle → List PageItem →
    Option (Except (List FroggiError) Page)
  | 0, _, _, _, _ => none
  | fuel + 1, sc, errors, page_styles, items =>
    match peekToken sc with
    | .error e => some (.error [e])
    | .ok t =>
      if t.kind = .End then
        some (if errors.isEmpty then .ok ⟨page_styles, items⟩ else .error errors)
      else if t.kind = .LeftBrace ∧ page_styles.isEmpty then
        match parse_page_styles fuel sc with
        | none => none
        | some (.ok styles, sc') => parse_loop fuel sc' errors styles items
        | some (.error e, sc') => parse_loop fuel sc' (errors ++ [e]) page_styles items
      else if t.kind = .LeftParen then
        match parse_item fuel sc with
        | none => none
        | some (.ok item, sc') => parse_loop fuel sc' errors page_styles (items ++ [item])
        | some (.error e, sc') => parse_loop fuel sc' (errors ++ [e]) page_styles items
      else
        parse_loop fuel (nextToken sc).2
          (errors ++ [FroggiError.parse (.ExpectedItem t.cloneLexeme) t.line])
          page_styles items

/-- Initial fuel for `parse`: comfortably larger than the number of loop
iterations and recursive calls any input of this length can cause (every
iteration consumes at least one source character). -/
def parseFuel (data : String) : Nat := 4 * data.length + 4

/-- `parse`: parse some data into a `Page`. -/
def parse (data : String) : Option (Except (List FroggiError) Page) :=
  parse_loop (parseFuel data) (Scanner.new data) [] [] []

/-! ## Instrumented top-level loop

`parse_run_loop` follows `parse`'s loop step for step but records the
observable pieces separately: the diagnostics pushed onto `errors`
(`collected`), the scan error that a top-level `?` propagated, if any
(`abort`), and the accumulated page styles and items. -/

/-- The observable outcome of running `parse`'s top-level loop. -/
structure ParseRun where
  abort : Option FroggiError
  collected : List FroggiError
  page_styles : List PageStyle
  items : List PageItem

/-- Instrumented twin of `parse_loop`. -/
def parse_run_loop : Nat → Scanner → List FroggiError → List PageStyle →
    List PageItem → Option ParseRun
  | 0, _, _, _, _ => none
  | fuel + 1, sc, errors, page_styles, items =>
    match peekToken sc with
    | .error e => some ⟨some e, errors, page_styles, items⟩
    | .ok t =>
      if t.kind = .End then
        some ⟨none, errors, page_styles, items⟩
      else if t.kind = .LeftBrace ∧ page_styles.isEmpty then
        match parse_page_styles fuel sc with
        | none => none
        | some (.ok styles, sc') => parse_run_loop fuel sc' errors styles items
        | some (.error e, sc') =>
          parse_run_loop fuel sc' (errors ++ [e]) page_styles items
      else if t.kind = .LeftParen then
        match parse_item fuel sc with
        | none => none
        | some (.ok item, sc') =>
          parse_run_loop fuel sc' errors page_styles (items ++ [item])
        | some (.error e, sc') =>
          parse_run_loop fuel sc' (errors ++ [e]) page_styles items
      else
        parse_run_loop fuel (nextToken sc).2
          (errors ++ [FroggiError.parse (.ExpectedItem t.cloneLexeme) t.line])
          page_styles items

/-- The instrumented run of `parse` on a source string. -/
def parse_run (data : String) : Option ParseRun :=
  parse_run_loop (parseFuel data) (Scanner.new data) [] [] []

/-- How `parse` presents the outcome of its loop: an abort yields
`Err(vec![e])`, otherwise a non-empty diagnostics list is returned, and an
empty one yields the page. -/
def runOutcome (r : ParseRun) : Except (List FroggiError) Page :=
  match r.abort with
  | some e => .error [e]
  | none =>
    if r.collected.isEmpty then .ok ⟨r.page_styles, r.items⟩ else .error r.collected

/-! ## Wire framing

Modelled from the spec: `library/src/request.rs` and
`library/src/response.rs` are not part of the source tree, so the request
and response codecs are built from specification section 4.2 (byte layouts,
version check, declared-length consistency check, UTF-8 validity of path,
page text and item names).  Streams are byte lists; reading past the end is
the `IOError` of a failed `read_exact`. -/

/-- One pass of the UTF-8 validation automaton (RFC 3629 well-formed byte
sequences). -/
def utf8ValidGo : Option (Nat × Nat × Nat) → List Nat → Bool
  | none, [] => true
  | some _, [] => false
  | none, b :: r =>
    if b ≤ 127 then utf8ValidGo none r
    else if 194 ≤ b && b ≤ 223 then utf8ValidGo (some (128, 191, 0)) r
    else if b == 224 then utf8ValidGo (some (160, 191, 1)) r
    else if (225 ≤ b && b ≤ 236) || (238 ≤ b && b ≤ 239) then
      utf8ValidGo (some (128, 191, 1)) r
    else if b == 237 then utf8ValidGo (some (128, 159, 1)) r
    else if b == 240 then utf8ValidGo (some (144, 191, 2)) r
    else if 241 ≤ b && b ≤ 243 then utf8ValidGo (some (128, 191, 2)) r
    else if b == 244 then utf8ValidGo (some (128, 143, 2)) r
    else false
  | some (lo, hi, k), b :: r =>
    if lo ≤ b && b ≤ hi then
      match k with
      | 0 => utf8ValidGo none r
      | k' + 1 => utf8ValidGo (some (128, 191, k')) r
    else false

/-- Modelled from the spec: "path must be valid UTF-8" / "Page text must be
valid UTF-8" / "Item names must be valid UTF-8".  Standard UTF-8 validity
over a byte list. -/
def utf8Valid (l : List Nat) : Bool := utf8ValidGo none l

/-- Read one byte from a stream; `IOError` at end of stream. -/
def readByte : List Nat → Except ErrorKind (Nat × List Nat)
  | [] => .error .IOError
  | b :: r => .ok (b, r)

/-- Read exactly `n` bytes from a stream; `IOError` if it ends early. -/
def readBytes (n : Nat) (s : List Nat) : Except ErrorKind (List Nat × List Nat) :=
  if n ≤ s.length then .ok (s.take n, s.drop n) else .error .IOError

/-- Modelled from the spec: a request is a protocol version byte, a 16-bit
path length, and a UTF-8 path of at most 65535 bytes. -/
structure Request where
  version : Nat
  path : List Nat
deriving DecidableEq, Repr

/-- Modelled from the spec: `Request::new(path)` fails with `RequestFormat`
if the path is longer than 65535 bytes or not valid UTF-8. -/
def Request.new (path : List Nat) : Except ErrorKind Request :=
  if path.length > 65535 ∨ utf8Valid path = false then
    .error .RequestFormatError
  else
    .ok ⟨FROGGI_VERSION, path⟩

/-- Modelled from the spec: `Request::to_bytes` layout
`[version:1][path_len_lo:1][path_len_hi:1][path_bytes:path_len]`. -/
def Request.to_bytes (r : Request) : Option (List Nat) :=
  (serialize_to_bytes r.path.length).map fun lh =>
    r.version :: lh.1 :: lh.2 :: r.path

/-- Modelled from the spec: `Request::from_bytes` reads exactly
`3 + path_len` bytes, fails with `IOError` if the stream ends early,
`EncodingError` if the path is not valid UTF-8, `RequestFormatError` if the
version byte does not match `FROGGI_VERSION`.  Returns the request and the
unconsumed remainder of the stream. -/
def Request.from_bytes (stream : List Nat) : Except ErrorKind (Request × List Nat) :=
  match readByte stream with
  | .error e => .error e
  | .ok (version, s1) =>
    match readBytes 2 s1 with
    | .error e => .error e
    | .ok (lenBytes, s2) =>
      match deserialize_bytes lenBytes with
      | none => .error .RequestFormatError
      | some path_len =>
        match readBytes path_len s2 with
        | .error e => .error e
        | .ok (path, s3) =>
          if version ≠ FROGGI_VERSION then .error .RequestFormatError
          else if utf8Valid path = false then .error .EncodingError
          else .ok (⟨version, path⟩, s3)

/-- Modelled from the spec: an item is a pair of a name (≤ 255 UTF-8 bytes)
and opaque payload bytes. -/
structure Item where
  name : List Nat
  payload : List Nat
deriving DecidableEq, Repr

/-- Modelled from the spec: a response is a version byte, a UTF-8 page text
and an ordered list of items. -/
structure Response where
  version : Nat
  page : List Nat
  items : List Item
deriving DecidableEq, Repr

/-- Modelled from the spec: `Response::new(page_text, items)`. -/
def Response.new (page : List Nat) (items : List Item) : Response :=
  ⟨FROGGI_VERSION, page, items⟩

/-- One item-table entry: `[name_length:1][name][payload_length:u32 LE]`;
`none` if the name is longer than 255 bytes or the payload longer than a
u32 can describe. -/
def itemTableEntry (it : Item) : Option (List Nat) :=
  if it.name.length ≤ 255 then
    (serialize_to_four_bytes it.payload.length).map fun pl =>
      it.name.length :: (it.name ++ pl)
  else
    none

/-- The concatenated item table. -/
def itemTable : List Item → Option (List Nat)
  | [] => some []
  | it :: rest =>
    match itemTableEntry it, itemTable rest with
    | some e, some t => some (e ++ t)
    | _, _ => none

/-- The concatenated item payloads, in table order. -/
def payloadBytes (items : List Item) : List Nat :=
  items.foldr (fun it acc => it.payload ++ acc) []

/-- Modelled from the spec: `Response::to_bytes` emits
`[version][total_length:u32][item_count:u16][item table][page_length:u32][page][payloads]`,
where `total_length` covers everything after itself. -/
def Response.to_bytes (r : Response) : Option (List Nat) :=
  match serialize_to_bytes r.items.length with
  | none => none
  | some (cntLo, cntHi) =>
    match itemTable r.items with
    | none => none
    | some table =>
      match serialize_to_four_bytes r.page.length with
      | none => none
      | some pageLen4 =>
        let body := cntLo :: cntHi :: (table ++ pageLen4 ++ r.page ++ payloadBytes r.items)
        match serialize_to_four_bytes body.length with
        | none => none
        | some total4 => some (r.version :: (total4 ++ body))

/-- Read `count` item-table entries, checking each name for UTF-8 validity;
returns the `(name, payload_length)` pairs and the rest of the stream. -/
def readItemTable : Nat → List Nat → Except ErrorKind (List (List Nat × Nat) × List Nat)
  | 0, s => .ok ([], s)
  | count + 1, s =>
    match readByte s with
    | .error e => .error e
    | .ok (nameLen, s1) =>
      match readBytes nameLen s1 with
      | .error e => .error e
      | .ok (name, s2) =>
        if utf8Valid name = false then .error .EncodingError
        else
          match readBytes 4 s2 with
          | .error e => .error e
          | .ok (pl4, s3) =>
            match deserialize_four_bytes pl4 with
            | none => .error .RequestFormatError
            | some payloadLen =>
              match readItemTable count s3 with
              | .error e => .error e
              | .ok (entries, s4) => .ok ((name, payloadLen) :: entries, s4)

/-- Read the payloads declared by the item table, in table order. -/
def readPayloads : List (List Nat × Nat) → List Nat →
    Except ErrorKind (List Item × List Nat)
  | [], s => .ok ([], s)
  | (name, payloadLen) :: entries, s =>
    match readBytes payloadLen s with
    | .error e => .error e
    | .ok (payload, s1) =>
      match readPayloads entries s1 with
      | .error e => .error e
      | .ok (items, s2) => .ok (⟨name, payload⟩ :: items, s2)

/-- The number of bytes after the `total_length` field that the decoded
header declares: item count (2), each table entry (1 + name length + 4),
page length field (4), page, payloads. -/
def declaredLength (entries : List (List Nat × Nat)) (pageLen : Nat) : Nat :=
  2 + (entries.foldr (fun en acc => (1 + en.1.length + 4) + acc) 0) + 4 + pageLen +
    (entries.foldr (fun en acc => en.2 + acc) 0)

/-- Modelled from the spec: `Response::from_bytes` reads the framed
response, failing with `RequestFormatError` on a bad version byte or when
the sum of declared lengths differs from `total_length`, `EncodingError` on
invalid UTF-8, `IOError` on a short stream.  Returns the response and the
unconsumed remainder of the stream. -/
def Response.from_bytes (stream : List Nat) : Except ErrorKind (Response × List Nat) :=
  match readByte stream with
  | .error e => .error e
  | .ok (version, s1) =>
    match readBytes 4 s1 with
    | .error e => .error e
    | .ok (total4, s2) =>
      match deserialize_four_bytes total4 with
      | none => .error .RequestFormatError
      | some total_length =>
        match readBytes 2 s2 with
        | .error e => .error e
        | .ok (cnt2, s3) =>
          match deserialize_bytes cnt2 with
          | none => .error .RequestFormatError
          | some item_count =>
            match readItemTable item_count s3 with
            | .error e => .error e
            | .ok (entries, s4) =>
              match readBytes 4 s4 with
              | .error e => .error e
              | .ok (pg4, s5) =>
                match deserialize_four_bytes pg4 with
                | none => .error .RequestFormatError
                | some page_len =>
                  match readBytes page_len s5 with
                  | .error e => .error e
                  | .ok (page, s6) =>
                    if utf8Valid page = false then .error .EncodingError
                    else
                      match readPayloads entries s6 with
                      | .error e => .error e
                      | .ok (items, s7) =>
                        if version ≠ FROGGI_VERSION then .error .RequestFormatError
                        else if declaredLength entries page_len ≠ total_length then
                          .error .RequestFormatError
                        else .ok (⟨version, page, items⟩, s7)

/-! ## Codec helper lemmas -/

theorem and_shiftRight_distrib (a b k : Nat) : (a &&& b) >>> k = (a >>> k) &&& (b >>> k) := by
  apply Nat.eq_of_testBit_eq
  intro i
  simp [Nat.testBit_shiftRight, Nat.testBit_and]

theorem mask_shift_eq (n k : Nat) : (n &&& (255 <<< k)) >>> k = (n >>> k) % 256 := by
  rw [and_shiftRight_distrib]
  have h255 : (255 : Nat) = 2 ^ 8 - 1 := by norm_num
  have h2 : (255 <<< k) >>> k = 255 := Nat.shiftLeft_shiftRight 255 k
  rw [h2, h255, Nat.and_pow_two_sub_one_eq_mod]

theorem lor_pow_add (k a b : Nat) (hb : b < 2 ^ k) : (2 ^ k * a) ||| b = 2 ^ k * a + b :=
  (Nat.mul_add_lt_is_or hb a).symm

theorem two_bytes_value (b0 b1 : Nat) (h0 : b0 < 256) :
    (b1 <<< 8) ||| b0 = b1 * 256 + b0 := by
  rw [Nat.shiftLeft_eq]
  have s1 : b1 * 2 ^ 8 = 2 ^ 8 * b1 := Nat.mul_comm _ _
  rw [s1, lor_pow_add 8 b1 b0 (by omega)]
  ring

theorem four_bytes_value (b0 b1 b2 b3 : Nat) (h0 : b0 < 256) (h1 : b1 < 256)
    (h2 : b2 < 256) :
    ((b3 <<< 24) ||| (b2 <<< 16)) ||| (b1 <<< 8) ||| b0 =
      ((b3 * 256 + b2) * 256 + b1) * 256 + b0 := by
  rw [Nat.shiftLeft_eq, Nat.shiftLeft_eq, Nat.shiftLeft_eq]
  have s1 : b3 * 2 ^ 24 = 2 ^ 24 * b3 := Nat.mul_comm _ _
  rw [s1, lor_pow_add 24 b3 (b2 * 2 ^ 16) (by omega)]
  have s2 : 2 ^ 24 * b3 + b2 * 2 ^ 16 = 2 ^ 16 * (b3 * 256 + b2) := by ring
  rw [s2, lor_pow_add 16 _ (b1 * 2 ^ 8) (by omega)]
  have s3 : 2 ^ 16 * (b3 * 256 + b2) + b1 * 2 ^ 8 = 2 ^ 8 * ((b3 * 256 + b2) * 256 + b1) := by
    ring
  rw [s3, lor_pow_add 8 _ b0 (by omega)]
  ring

theorem serialize_to_bytes_eq (n : Nat) (h : n ≤ 65535) :
    serialize_to_bytes n = some (n % 256, n / 256) := by
  simp only [serialize_to_bytes, if_pos h]
  have h1 : n &&& 0xff = n % 256 := by
    have h255 : (0xff : Nat) = 2 ^ 8 - 1 := by norm_num
    rw [h255, Nat.and_pow_two_sub_one_eq_mod]
  rw [h1, Nat.shiftRight_eq_div_pow]
  simp only [Option.some.injEq, Prod.mk.injEq, true_and]
  omega

theorem serialize_to_four_bytes_eq (n : Nat) (h : n ≤ 4294967295) :
    serialize_to_four_bytes n =
      some [n % 256, n / 256 % 256, n / 65536 % 256, n / 16777216 % 256] := by
  simp only [serialize_to_four_bytes, if_pos h]
  have e24 : (0xff000000 : Nat) = 255 <<< 24 := by norm_num [Nat.shiftLeft_eq]
  have e16 : (0x00ff0000 : Nat) = 255 <<< 16 := by norm_num [Nat.shiftLeft_eq]
  have e8 : (0x0000ff00 : Nat) = 255 <<< 8 := by norm_num [Nat.shiftLeft_eq]
  rw [e24, e16, e8, mask_shift_eq, mask_shift_eq, mask_shift_eq]
  rw [Nat.shiftRight_eq_div_pow, Nat.shiftRight_eq_div_pow, Nat.shiftRight_eq_div_pow]
  simp only [Option.some.injEq, List.cons.injEq, true_and, and_true]
  refine ⟨?_, ?_, ?_⟩ <;> omega

theorem deserialize_two_of_serialize (n lo hi : Nat) (h : serialize_to_bytes n = some (lo, hi)) :
    deserialize_bytes [lo, hi] = some n := by
  have hn : n ≤ 65535 := by
    by_contra hc
    simp [serialize_to_bytes, if_neg (by omega : ¬ n ≤ 65535)] at h
  rw [serialize_to_bytes_eq n hn] at h
  obtain ⟨h1, h2⟩ : lo = n % 256 ∧ hi = n / 256 := by
    constructor <;> (cases h; rfl)
  subst h1 h2
  simp only [deserialize_bytes, List.length, dif_pos, List.getElem_cons_zero,
    List.getElem_cons_succ]
  rw [two_bytes_value _ _ (by omega)]
  congr 1
  omega

theorem deserialize_four_of_serialize (n : Nat) (bs : List Nat)
    (h : serialize_to_four_bytes n = some bs) : deserialize_four_bytes bs = some n := by
  have hn : n ≤ 4294967295 := by
    by_contra hc
    simp [serialize_to_four_bytes, if_neg (by omega : ¬ n ≤ 4294967295)] at h
  rw [serialize_to_four_bytes_eq n hn] at h
  cases h
  simp only [deserialize_four_bytes, List.length, dif_pos, List.getElem_cons_zero,
    List.getElem_cons_succ]
  rw [four_bytes_value _ _ _ _ (by omega) (by omega) (by omega)]
  congr 1
  omega

/-! ## Claim C1: codec round-trip -/

/-- C1.  Codec round-trip: for every `n ≤ 65535`,
`deserialize_bytes (serialize_to_bytes n) = n`, and for every
`n ≤ 2^32 - 1`, `deserialize_four_bytes (serialize_to_four_bytes n) = n`. -/
theorem claim_c1_codec_roundtrip :
    (∀ n : Nat, n ≤ 65535 →
      (serialize_to_bytes n).bind (fun p => deserialize_bytes [p.1, p.2]) = some n) ∧
    (∀ n : Nat, n ≤ 4294967295 →
      (serialize_to_four_bytes n).bind deserialize_four_bytes = some n) := by
  constructor
  · intro n h
    rw [serialize_to_bytes_eq n h]
    exact deserialize_two_of_serialize n _ _ (serialize_to_bytes_eq n h)
  · intro n h
    rw [serialize_to_four_bytes_eq n h]
    exact deserialize_four_of_serialize n _ (serialize_to_four_bytes_eq n h)

/-- Witness for C1 at `n = 0x1234` and `n = 0x01020304`. -/
theorem claim_c1_codec_roundtrip_witness :
    (4660 ≤ 65535 ∧
      (serialize_to_bytes 4660).bind (fun p => deserialize_bytes [p.1, p.2]) = some 4660) ∧
    (16909060 ≤ 4294967295 ∧
      (serialize_to_four_bytes 16909060).bind deserialize_four_bytes = some 16909060) :=
  ⟨⟨by norm_num, claim_c1_codec_roundtrip.1 4660 (by norm_num)⟩,
   ⟨by norm_num, claim_c1_codec_roundtrip.2 16909060 (by norm_num)⟩⟩

/-! ## Claim C2: endianness -/

/-- C2.  The encoders emit the least significant byte first:
`serialize_to_bytes 0x1234 = (0x34, 0x12)`,
`serialize_to_four_bytes 0x01020304 = [0x04, 0x03, 0x02, 0x01]`, and for
every `n ≤ 65535` the first emitted byte is `n % 256` and the second
`n / 256`. -/
theorem claim_c2_endianness :
    serialize_to_bytes 4660 = some (52, 18) ∧
    serialize_to_four_bytes 16909060 = some [4, 3, 2, 1] ∧
    (∀ n : Nat, n ≤ 65535 → serialize_to_bytes n = some (n % 256, n / 256)) :=
  ⟨by decide, by decide, serialize_to_bytes_eq⟩

/-- Witness for C2's universally quantified part at `n = 770 = 0x0302`. -/
theorem claim_c2_endianness_witness :
    770 ≤ 65535 ∧ serialize_to_bytes 770 = some (2, 3) :=
  ⟨by norm_num, claim_c2_endianness.2.2 770 (by norm_num)⟩

/-! ## Claim C9: breadcrumb messages -/

/-- C9.  Appending a context message (`msg` or `msg_str`) leaves the
`ErrorKind` unchanged; appending `m1` to an error with no message stores
`m1`, and appending `m2` afterwards yields the single message
`"m1, m2"`. -/
theorem claim_c9_breadcrumb :
    (∀ (e : FroggiError) (m : String),
      (e.addMsg m).error = e.error ∧ (e.addMsgStr m).error = e.error) ∧
    (∀ (k : ErrorKind) (m1 m2 : String),
      (FroggiError.mk k none).addMsg m1 = ⟨k, some m1⟩ ∧
      (FroggiError.mk k none).addMsgStr m1 = ⟨k, some m1⟩ ∧
      ((FroggiError.mk k none).addMsg m1).addMsg m2 = ⟨k, some (m1 ++ ", " ++ m2)⟩) := by
  constructor
  · intro e m
    cases e with
    | mk err msg =>
      cases msg <;> simp [FroggiError.addMsg, FroggiError.addMsgStr]
  · intro k m1 m2
    refine ⟨rfl, rfl, ?_⟩
    simp [FroggiError.addMsg, FroggiError.addMsgStr]




theorem nextToken_end_eq (sc : Scanner) (line : Nat)
    (hsw : skipWhitespace sc.rest sc.line = ([], line)) :
    nextToken sc = (.ok ⟨.End, line, ""⟩, ⟨[], line⟩) := by
  unfold nextToken
  rw [hsw]

theorem nextToken_sigil_eq (sc : Scanner) (c : Char) (r : List Char) (line : Nat)
    (k : TokenKind) (hsw : skipWhitespace sc.rest sc.line = (c :: r, line))
    (hsk : sigilKind c = some k) :
    nextToken sc = (.ok ⟨k, line, String.mk [c]⟩, ⟨r, line⟩) := by
  unfold nextToken
  rw [hsw]
  simp only [hsk]

theorem nextToken_quote_eq (sc : Scanner) (r : List Char) (line : Nat)
    (hsw : skipWhitespace sc.rest sc.line = ('"' :: r, line)) :
    nextToken sc = ((scanString line line [] r).1,
      ⟨(scanString line line [] r).2.1, (scanString line line [] r).2.2⟩) := by
  unfold nextToken
  rw [hsw]
  rfl

theorem nextToken_ident_eq (sc : Scanner) (c : Char) (r : List Char) (line : Nat)
    (hsw : skipWhitespace sc.rest sc.line = (c :: r, line))
    (hsk : sigilKind c = none) (hq : ¬ c = '"') :
    nextToken sc = (.ok ⟨.Identifier, line, String.mk ((c :: r).takeWhile isIdentChar)⟩,
      ⟨(c :: r).dropWhile isIdentChar, line⟩) := by
  unfold nextToken
  rw [hsw]
  simp only [hsk]
  rw [if_neg hq]

theorem scanString_error_clean : ∀ (sl line : Nat) (acc rest : List Char) (e : FroggiError)
    (r : List Char) (l : Nat), scanString sl line acc rest = (.error e, r, l) →
    e.unknownStyleB = false := by
  intro sl line acc rest
  induction line, acc, rest using scanString.induct sl with
  | _ =>
    intro e r l h <;>
      simp_all [scanString, FroggiError.scan, FroggiError.unknownStyleB] <;>
      (obtain ⟨he, -, -⟩ := h; subst he; rfl)

theorem nextToken_error_clean (sc : Scanner) (e : FroggiError) (sc' : Scanner)
    (h : nextToken sc = (.error e, sc')) : e.unknownStyleB = false := by
  rcases hsw : skipWhitespace sc.rest sc.line with ⟨rest, line⟩
  cases rest with
  | nil => rw [nextToken_end_eq sc line hsw] at h; simp at h
  | cons c r =>
    cases hsk : sigilKind c with
    | some k => rw [nextToken_sigil_eq sc c r line k hsw hsk] at h; simp at h
    | none =>
      by_cases hq : c = '"'
      · rw [hq] at hsw
        rw [nextToken_quote_eq sc r line hsw] at h
        rcases hs : scanString line line [] r with ⟨res, r', l'⟩
        rw [hs] at h
        simp only [Prod.mk.injEq] at h
        obtain ⟨h1, -⟩ := h
        cases res with
        | ok tok => exact absurd h1 (by simp)
        | error e0 =>
          cases h1
          exact scanString_error_clean _ _ _ _ _ _ _ hs
      · rw [nextToken_ident_eq sc c r line hsw hsk hq] at h; simp at h

theorem peekToken_error_clean (sc : Scanner) (e : FroggiError)
    (h : peekToken sc = .error e) : e.unknownStyleB = false := by
  unfold peekToken at h
  rcases hn : nextToken sc with ⟨res, sc'⟩
  rw [hn] at h
  simp only at h
  subst h
  exact nextToken_error_clean sc e sc' hn

theorem addMsg_error_eq (e : FroggiError) (m : String) : (e.addMsg m).error = e.error := by
  cases e with
  | mk err msg => cases msg <;> rfl

theorem addMsg_clean {e : FroggiError} (h : e.unknownStyleB = false) (m : String) :
    (e.addMsg m).unknownStyleB = false := by
  unfold FroggiError.unknownStyleB at h ⊢
  rw [addMsg_error_eq]
  exact h

theorem consume_error_clean (sc : Scanner) (kind : TokenKind) (e : FroggiError)
    (sc' : Scanner) (h : consume sc kind = (.error e, sc')) : e.unknownStyleB = false := by
  unfold consume at h
  rcases hn : nextToken sc with ⟨res, sc1⟩
  rw [hn] at h
  cases res with
  | error e0 =>
    simp only [Prod.mk.injEq] at h
    obtain ⟨h1, -⟩ := h
    cases h1
    exact nextToken_error_clean _ _ _ hn
  | ok token =>
    by_cases hk : token.kind = kind
    · simp [hk] at h
    · simp only [if_neg hk, Prod.mk.injEq] at h
      obtain ⟨h1, -⟩ := h
      cases h1
      rfl

theorem consume_selector_error_clean (sc : Scanner) (e : FroggiError)
    (sc' : Scanner) (h : consume_selector sc = (.error e, sc')) :
    e.unknownStyleB = false := by
  unfold consume_selector at h
  rcases hn : nextToken sc with ⟨res, sc1⟩
  rw [hn] at h
  cases res with
  | error e0 =>
    simp only [Prod.mk.injEq] at h
    obtain ⟨h1, -⟩ := h
    cases h1
    exact nextToken_error_clean _ _ _ hn
  | ok token =>
    dsimp only at h
    by_cases hk : token.kind = .Identifier ∨ token.kind = .Link ∨ token.kind = .Box ∨
        token.kind = .VBox ∨ token.kind = .Text
    · rw [if_pos hk] at h
      simp at h
    · rw [if_neg hk] at h
      simp only [Prod.mk.injEq] at h
      obtain ⟨h1, -⟩ := h
      cases h1
      rfl


theorem parse_inline_styles_loop_error_clean :
    ∀ (fuel : Nat) (sc : Scanner) (acc : List InlineStyle) (e : FroggiError) (sc' : Scanner),
      parse_inline_styles_loop fuel sc acc = some (.error e, sc') →
      e.unknownStyleB = false := by
  intro fuel
  induction fuel with
  | zero => intro sc acc e sc' h; simp [parse_inline_styles_loop] at h
  | succ fuel ih =>
    intro sc acc e sc' h
    rw [parse_inline_styles_loop] at h
    split at h
    · simp only [Option.some.injEq, Prod.mk.injEq] at h
      obtain ⟨h1, -⟩ := h
      cases h1
      exact peekToken_error_clean _ _ (by assumption)
    · split at h
      · simp only [Option.some.injEq, Prod.mk.injEq] at h
        obtain ⟨h1, -⟩ := h
        cases h1
      · split at h
        · simp only [Option.some.injEq, Prod.mk.injEq] at h
          obtain ⟨h1, -⟩ := h
          cases h1
          exact nextToken_error_clean _ _ _ (by assumption)
        · split at h
          · exact ih _ _ _ _ h
          · split at h
            · split at h
              · simp only [Option.some.injEq, Prod.mk.injEq] at h
                obtain ⟨h1, -⟩ := h
                cases h1
                exact addMsg_clean (consume_error_clean _ _ _ _ (by assumption)) _
              · split at h
                · simp only [Option.some.injEq, Prod.mk.injEq] at h
                  obtain ⟨h1, -⟩ := h
                  cases h1
                  exact addMsg_clean (consume_error_clean _ _ _ _ (by assumption)) _
                · split at h
                  · simp only [Option.some.injEq, Prod.mk.injEq] at h
                    obtain ⟨h1, -⟩ := h
                    cases h1
                    exact addMsg_clean (consume_error_clean _ _ _ _ (by assumption)) _
                  · exact ih _ _ _ _ h
            · simp only [Option.some.injEq, Prod.mk.injEq] at h
              obtain ⟨h1, -⟩ := h
              cases h1
              exact addMsg_clean (by rfl) _


theorem parse_inline_styles_error_clean (fuel : Nat) (sc : Scanner) (e : FroggiError)
    (sc' : Scanner) (h : parse_inline_styles fuel sc = some (.error e, sc')) :
    e.unknownStyleB = false := by
  unfold parse_inline_styles at h
  split at h
  · simp only [Option.some.injEq, Prod.mk.injEq] at h
    obtain ⟨h1, -⟩ := h
    cases h1
    exact peekToken_error_clean _ _ (by assumption)
  · split at h
    · split at h
      · simp only [Option.some.injEq, Prod.mk.injEq] at h
        obtain ⟨h1, -⟩ := h
        cases h1
        exact consume_error_clean _ _ _ _ (by assumption)
      · split at h
        · simp at h
        · simp only [Option.some.injEq, Prod.mk.injEq] at h
          obtain ⟨h1, -⟩ := h
          cases h1
          exact parse_inline_styles_loop_error_clean _ _ _ _ _ (by assumption)
        · split at h
          · simp only [Option.some.injEq, Prod.mk.injEq] at h
            obtain ⟨h1, -⟩ := h
            cases h1
            exact addMsg_clean (consume_error_clean _ _ _ _ (by assumption)) _
          · simp at h
    · simp at h

theorem collect_text_loop_error_clean :
    ∀ (fuel : Nat) (sc : Scanner) (acc : List Token) (e : FroggiError) (sc' : Scanner),
      collect_text_loop fuel sc acc = some (.error e, sc') → e.unknownStyleB = false := by
  intro fuel
  induction fuel with
  | zero => intro sc acc e sc' h; simp [collect_text_loop] at h
  | succ fuel ih =>
    intro sc acc e sc' h
    rw [collect_text_loop] at h
    split at h
    · simp only [Option.some.injEq, Prod.mk.injEq] at h
      obtain ⟨h1, -⟩ := h
      cases h1
      exact peekToken_error_clean _ _ (by assumption)
    · split at h
      · simp at h
      · split at h
        · simp only [Option.some.injEq, Prod.mk.injEq] at h
          obtain ⟨h1, -⟩ := h
          cases h1
          exact consume_error_clean _ _ _ _ (by assumption)
        · exact ih _ _ _ _ h

theorem collect_text_error_clean (fuel : Nat) (sc : Scanner) (e : FroggiError)
    (sc' : Scanner) (h : collect_text fuel sc = some (.error e, sc')) :
    e.unknownStyleB = false :=
  collect_text_loop_error_clean fuel sc [] e sc' h

theorem parse_anchor_error_clean (sc : Scanner) (e : FroggiError) (sc' : Scanner)
    (h : parse_anchor sc = (.error e, sc')) : e.unknownStyleB = false := by
  unfold parse_anchor at h
  split at h
  · simp only [Prod.mk.injEq] at h
    obtain ⟨h1, -⟩ := h
    cases h1
    exact consume_error_clean _ _ _ _ (by assumption)
  · split at h
    · simp only [Prod.mk.injEq] at h
      obtain ⟨h1, -⟩ := h
      cases h1
      exact consume_error_clean _ _ _ _ (by assumption)
    · simp at h

theorem parse_blob_error_clean (fuel : Nat) (sc : Scanner) (e : FroggiError) (sc' : Scanner)
    (h : parse_blob fuel sc = some (.error e, sc')) : e.unknownStyleB = false := by
  unfold parse_blob at h
  split at h
  · simp only [Option.some.injEq, Prod.mk.injEq] at h
    obtain ⟨h1, -⟩ := h
    cases h1
    exact consume_error_clean _ _ _ _ (by assumption)
  · split at h
    · simp only [Option.some.injEq, Prod.mk.injEq] at h
      obtain ⟨h1, -⟩ := h
      cases h1
      exact consume_error_clean _ _ _ _ (by assumption)
    · split at h
      · simp at h
      · simp only [Option.some.injEq, Prod.mk.injEq] at h
        obtain ⟨h1, -⟩ := h
        cases h1
        exact parse_inline_styles_error_clean _ _ _ _ (by assumption)
      · split at h
        · simp at h
        · simp only [Option.some.injEq, Prod.mk.injEq] at h
          obtain ⟨h1, -⟩ := h
          cases h1
          exact collect_text_error_clean _ _ _ _ (by assumption)
        · simp at h

theorem parse_link_error_clean (fuel : Nat) (sc : Scanner) (e : FroggiError) (sc' : Scanner)
    (h : parse_link fuel sc = some (.error e, sc')) : e.unknownStyleB = false := by
  unfold parse_link at h
  split at h
  · simp only [Option.some.injEq, Prod.mk.injEq] at h
    obtain ⟨h1, -⟩ := h
    cases h1
    exact consume_error_clean _ _ _ _ (by assumption)
  · split at h
    · simp only [Option.some.injEq, Prod.mk.injEq] at h
      obtain ⟨h1, -⟩ := h
      cases h1
      exact consume_error_clean _ _ _ _ (by assumption)
    · split at h
      · simp at h
      · simp only [Option.some.injEq, Prod.mk.injEq] at h
        obtain ⟨h1, -⟩ := h
        cases h1
        exact parse_inline_styles_error_clean _ _ _ _ (by assumption)
      · split at h
        · simp at h
        · simp only [Option.some.injEq, Prod.mk.injEq] at h
          obtain ⟨h1, -⟩ := h
          cases h1
          exact collect_text_error_clean _ _ _ _ (by assumption)
        · simp at h

theorem parse_text_error_clean (fuel : Nat) (sc : Scanner) (e : FroggiError) (sc' : Scanner)
    (h : parse_text fuel sc = some (.error e, sc')) : e.unknownStyleB = false := by
  unfold parse_text at h
  split at h
  · simp only [Option.some.injEq, Prod.mk.injEq] at h
    obtain ⟨h1, -⟩ := h
    cases h1
    exact consume_error_clean _ _ _ _ (by assumption)
  · split at h
    · simp at h
    · simp only [Option.some.injEq, Prod.mk.injEq] at h
      obtain ⟨h1, -⟩ := h
      cases h1
      exact parse_inline_styles_error_clean _ _ _ _ (by assumption)
    · split at h
      · simp at h
      · simp only [Option.some.injEq, Prod.mk.injEq] at h
        obtain ⟨h1, -⟩ := h
        cases h1
        exact collect_text_error_clean _ _ _ _ (by assumption)
      · simp at h

theorem parse_implicit_text_error_clean (fuel : Nat) (sc : Scanner) (e : FroggiError)
    (sc' : Scanner) (h : parse_implicit_text fuel sc = some (.error e, sc')) :
    e.unknownStyleB = false := by
  unfold parse_implicit_text at h
  split at h
  · simp only [Option.some.injEq, Prod.mk.injEq] at h
    obtain ⟨h1, -⟩ := h
    cases h1
    exact peekToken_error_clean _ _ (by assumption)
  · split at h
    · simp at h
    · simp only [Option.some.injEq, Prod.mk.injEq] at h
      obtain ⟨h1, -⟩ := h
      cases h1
      exact parse_inline_styles_error_clean _ _ _ _ (by assumption)
    · split at h
      · simp at h
      · simp only [Option.some.injEq, Prod.mk.injEq] at h
        obtain ⟨h1, -⟩ := h
        cases h1
        exact collect_text_error_clean _ _ _ _ (by assumption)
      · simp at h


theorem item_mutual_error_clean :
    ∀ fuel : Nat,
      (∀ (sc : Scanner) (e : FroggiError) (sc' : Scanner),
        parse_item fuel sc = some (.error e, sc') → e.unknownStyleB = false) ∧
      (∀ (sc : Scanner) (e : FroggiError) (sc' : Scanner),
        parse_vbox fuel sc = some (.error e, sc') → e.unknownStyleB = false) ∧
      (∀ (sc : Scanner) (e : FroggiError) (sc' : Scanner),
        parse_box fuel sc = some (.error e, sc') → e.unknownStyleB = false) ∧
      (∀ (sc : Scanner) (acc : List PageItem) (e : FroggiError) (sc' : Scanner),
        parse_children_loop fuel sc acc = some (.error e, sc') → e.unknownStyleB = false) := by
  intro fuel
  induction fuel with
  | zero =>
    refine ⟨?_, ?_, ?_, ?_⟩
    · intro sc e sc' h; simp [parse_item] at h
    · intro sc e sc' h; simp [parse_vbox] at h
    · intro sc e sc' h; simp [parse_box] at h
    · intro sc acc e sc' h; simp [parse_children_loop] at h
  | succ fuel ih =>
    obtain ⟨ih_item, ih_vbox, ih_box, ih_children⟩ := ih
    refine ⟨?_, ?_, ?_, ?_⟩
    · intro sc e sc' h
      rw [parse_item] at h
      split at h
      case h_1 x e0 sc1 heqC =>
        simp only [Option.some.injEq, Prod.mk.injEq] at h
        obtain ⟨h1, -⟩ := h
        cases h1
        exact consume_error_clean _ _ _ _ heqC
      case h_2 x lp sc1 heqC =>
        split at h
        case h_1 y e0 heqP =>
          simp only [Option.some.injEq, Prod.mk.injEq] at h
          obtain ⟨h1, -⟩ := h
          cases h1
          exact peekToken_error_clean _ _ heqP
        case h_2 y t heqP =>
          split at h
          case isTrue =>
              dsimp only at h
              split at h
              · simp at h
              · simp only [Option.some.injEq, Prod.mk.injEq] at h
                obtain ⟨h1, -⟩ := h
                cases h1
                exact parse_blob_error_clean _ _ _ _ (by assumption)
              · split at h
                · simp only [Option.some.injEq, Prod.mk.injEq] at h
                  obtain ⟨h1, -⟩ := h
                  cases h1
                  exact addMsg_clean (consume_error_clean _ _ _ _ (by assumption)) _
                · simp at h
          case isFalse =>
              split at h
              case isTrue =>
                  dsimp only at h
                  split at h
                  · simp at h
                  · simp only [Option.some.injEq, Prod.mk.injEq] at h
                    obtain ⟨h1, -⟩ := h
                    cases h1
                    exact parse_link_error_clean _ _ _ _ (by assumption)
                  · split at h
                    · simp only [Option.some.injEq, Prod.mk.injEq] at h
                      obtain ⟨h1, -⟩ := h
                      cases h1
                      exact addMsg_clean (consume_error_clean _ _ _ _ (by assumption)) _
                    · simp at h
              case isFalse =>
                  split at h
                  case isTrue =>
                      rcases hA : parse_anchor sc1 with ⟨res, sc2⟩
                      rw [hA] at h
                      cases res with
                      | error e0 =>
                        dsimp only at h
                        simp only [Option.some.injEq, Prod.mk.injEq] at h
                        obtain ⟨h1, -⟩ := h
                        cases h1
                        exact parse_anchor_error_clean _ _ _ hA
                      | ok item =>
                        dsimp only at h
                        split at h
                        · simp only [Option.some.injEq, Prod.mk.injEq] at h
                          obtain ⟨h1, -⟩ := h
                          cases h1
                          exact addMsg_clean (consume_error_clean _ _ _ _ (by assumption)) _
                        · simp at h
                  case isFalse =>
                      split at h
                      case isTrue =>
                          dsimp only at h
                          split at h
                          · simp at h
                          · simp only [Option.some.injEq, Prod.mk.injEq] at h
                            obtain ⟨h1, -⟩ := h
                            cases h1
                            exact parse_text_error_clean _ _ _ _ (by assumption)
                          · split at h
                            · simp only [Option.some.injEq, Prod.mk.injEq] at h
                              obtain ⟨h1, -⟩ := h
                              cases h1
                              exact addMsg_clean (consume_error_clean _ _ _ _ (by assumption)) _
                            · simp at h
                      case isFalse =>
                          split at h
                          case isTrue =>
                              dsimp only at h
                              split at h
                              · simp at h
                              · simp only [Option.some.injEq, Prod.mk.injEq] at h
                                obtain ⟨h1, -⟩ := h
                                cases h1
                                exact ih_vbox _ _ _ (by assumption)
                              · split at h
                                · simp only [Option.some.injEq, Prod.mk.injEq] at h
                                  obtain ⟨h1, -⟩ := h
                                  cases h1
                                  exact addMsg_clean (consume_error_clean _ _ _ _ (by assumption)) _
                                · simp at h
                          case isFalse =>
                              split at h
                              case isTrue =>
                                  dsimp only at h
                                  split at h
                                  · simp at h
                                  · simp only [Option.some.injEq, Prod.mk.injEq] at h
                                    obtain ⟨h1, -⟩ := h
                                    cases h1
                                    exact ih_box _ _ _ (by assumption)
                                  · split at h
                                    · simp only [Option.some.injEq, Prod.mk.injEq] at h
                                      obtain ⟨h1, -⟩ := h
                                      cases h1
                                      exact addMsg_clean (consume_error_clean _ _ _ _ (by assumption)) _
                                    · simp at h
                              case isFalse =>
                                  dsimp only at h
                                  split at h
                                  · simp at h
                                  · simp only [Option.some.injEq, Prod.mk.injEq] at h
                                    obtain ⟨h1, -⟩ := h
                                    cases h1
                                    exact parse_implicit_text_error_clean _ _ _ _ (by assumption)
                                  · split at h
                                    · simp only [Option.some.injEq, Prod.mk.injEq] at h
                                      obtain ⟨h1, -⟩ := h
                                      cases h1
                                      exact addMsg_clean (consume_error_clean _ _ _ _ (by assumption)) _
                                    · simp at h
    · intro sc e sc' h
      rw [parse_vbox] at h
      split at h
      · simp only [Option.some.injEq, Prod.mk.injEq] at h
        obtain ⟨h1, -⟩ := h
        cases h1
        exact consume_error_clean _ _ _ _ (by assumption)
      · split at h
        · simp at h
        · simp only [Option.some.injEq, Prod.mk.injEq] at h
          obtain ⟨h1, -⟩ := h
          cases h1
          exact parse_inline_styles_error_clean _ _ _ _ (by assumption)
        · split at h
          · simp at h
          · simp only [Option.some.injEq, Prod.mk.injEq] at h
            obtain ⟨h1, -⟩ := h
            cases h1
            exact ih_children _ _ _ _ (by assumption)
          · simp at h
    · intro sc e sc' h
      rw [parse_box] at h
      split at h
      · simp only [Option.some.injEq, Prod.mk.injEq] at h
        obtain ⟨h1, -⟩ := h
        cases h1
        exact consume_error_clean _ _ _ _ (by assumption)
      · split at h
        · simp at h
        · simp only [Option.some.injEq, Prod.mk.injEq] at h
          obtain ⟨h1, -⟩ := h
          cases h1
          exact parse_inline_styles_error_clean _ _ _ _ (by assumption)
        · split at h
          · simp at h
          · simp only [Option.some.injEq, Prod.mk.injEq] at h
            obtain ⟨h1, -⟩ := h
            cases h1
            exact ih_children _ _ _ _ (by assumption)
          · simp at h
    · intro sc acc e sc' h
      rw [parse_children_loop] at h
      split at h
      · simp only [Option.some.injEq, Prod.mk.injEq] at h
        obtain ⟨h1, -⟩ := h
        cases h1
        exact peekToken_error_clean _ _ (by assumption)
      · split at h
        · simp at h
        · split at h
          · simp at h
          · simp only [Option.some.injEq, Prod.mk.injEq] at h
            obtain ⟨h1, -⟩ := h
            cases h1
            exact ih_item _ _ _ (by assumption)
          · exact ih_children _ _ _ _ h


theorem parse_style_rule_loop_error_clean :
    ∀ (fuel : Nat) (sc : Scanner) (acc : List InlineStyle) (e : FroggiError) (sc' : Scanner),
      parse_style_rule_loop fuel sc acc = some (.error e, sc') →
      e.unknownStyleB = false := by
  intro fuel
  induction fuel with
  | zero => intro sc acc e sc' h; simp [parse_style_rule_loop] at h
  | succ fuel ih =>
    intro sc acc e sc' h
    rw [parse_style_rule_loop] at h
    split at h
    · simp only [Option.some.injEq, Prod.mk.injEq] at h
      obtain ⟨h1, -⟩ := h
      cases h1
      exact peekToken_error_clean _ _ (by assumption)
    · split at h
      · simp only [Option.some.injEq, Prod.mk.injEq] at h
        obtain ⟨h1, -⟩ := h
        cases h1
      · split at h
        · simp only [Option.some.injEq, Prod.mk.injEq] at h
          obtain ⟨h1, -⟩ := h
          cases h1
          exact nextToken_error_clean _ _ _ (by assumption)
        · split at h
          · exact ih _ _ _ _ h
          · split at h
            · split at h
              · simp only [Option.some.injEq, Prod.mk.injEq] at h
                obtain ⟨h1, -⟩ := h
                cases h1
                exact addMsg_clean (consume_error_clean _ _ _ _ (by assumption)) _
              · split at h
                · simp only [Option.some.injEq, Prod.mk.injEq] at h
                  obtain ⟨h1, -⟩ := h
                  cases h1
                  exact addMsg_clean (consume_error_clean _ _ _ _ (by assumption)) _
                · split at h
                  · simp only [Option.some.injEq, Prod.mk.injEq] at h
                    obtain ⟨h1, -⟩ := h
                    cases h1
                    exact addMsg_clean (consume_error_clean _ _ _ _ (by assumption)) _
                  · exact ih _ _ _ _ h
            · simp only [Option.some.injEq, Prod.mk.injEq] at h
              obtain ⟨h1, -⟩ := h
              cases h1
              exact addMsg_clean (by rfl) _

theorem parse_page_styles_loop_error_clean :
    ∀ (fuel : Nat) (sc : Scanner) (acc : List PageStyle) (e : FroggiError) (sc' : Scanner),
      parse_page_styles_loop fuel sc acc = some (.error e, sc') →
      e.unknownStyleB = false := by
  intro fuel
  induction fuel with
  | zero => intro sc acc e sc' h; simp [parse_page_styles_loop] at h
  | succ fuel ih =>
    intro sc acc e sc' h
    rw [parse_page_styles_loop] at h
    split at h
    · simp only [Option.some.injEq, Prod.mk.injEq] at h
      obtain ⟨h1, -⟩ := h
      cases h1
      exact peekToken_error_clean _ _ (by assumption)
    · split at h
      · simp only [Option.some.injEq, Prod.mk.injEq] at h
        obtain ⟨h1, -⟩ := h
        cases h1
      · split at h
        · simp only [Option.some.injEq, Prod.mk.injEq] at h
          obtain ⟨h1, -⟩ := h
          cases h1
          exact addMsg_clean (consume_error_clean _ _ _ _ (by assumption)) _
        · split at h
          · simp only [Option.some.injEq, Prod.mk.injEq] at h
            obtain ⟨h1, -⟩ := h
            cases h1
            exact consume_selector_error_clean _ _ _ (by assumption)
          · split at h
            · simp at h
            · simp only [Option.some.injEq, Prod.mk.injEq] at h
              obtain ⟨h1, -⟩ := h
              cases h1
              exact parse_style_rule_loop_error_clean _ _ _ _ _ (by assumption)
            · split at h
              · simp only [Option.some.injEq, Prod.mk.injEq] at h
                obtain ⟨h1, -⟩ := h
                cases h1
                exact addMsg_clean (consume_error_clean _ _ _ _ (by assumption)) _
              · exact ih _ _ _ _ h

theorem parse_page_styles_error_clean (fuel : Nat) (sc : Scanner) (e : FroggiError)
    (sc' : Scanner) (h : parse_page_styles fuel sc = some (.error e, sc')) :
    e.unknownStyleB = false := by
  unfold parse_page_styles at h
  split at h
  · simp only [Option.some.injEq, Prod.mk.injEq] at h
    obtain ⟨h1, -⟩ := h
    cases h1
    exact consume_error_clean _ _ _ _ (by assumption)
  · split at h
    · simp at h
    · simp only [Option.some.injEq, Prod.mk.injEq] at h
      obtain ⟨h1, -⟩ := h
      cases h1
      exact parse_page_styles_loop_error_clean _ _ _ _ _ (by assumption)
    · split at h
      · simp only [Option.some.injEq, Prod.mk.injEq] at h
        obtain ⟨h1, -⟩ := h
        cases h1
        exact addMsg_clean (consume_error_clean _ _ _ _ (by assumption)) _
      · simp at h

theorem parse_loop_errors_clean :
    ∀ (fuel : Nat) (sc : Scanner) (errors : List FroggiError) (ps : List PageStyle)
      (items : List PageItem) (es : List FroggiError),
      (∀ e ∈ errors, e.unknownStyleB = false) →
      parse_loop fuel sc errors ps items = some (.error es) →
      ∀ e ∈ es, e.unknownStyleB = false := by
  intro fuel
  induction fuel with
  | zero => intro sc errors ps items es hall h; simp [parse_loop] at h
  | succ fuel ih =>
    intro sc errors ps items es hall h
    rw [parse_loop] at h
    split at h
    · simp only [Option.some.injEq] at h
      cases h
      intro e he
      simp only [List.mem_singleton] at he
      subst he
      exact peekToken_error_clean _ _ (by assumption)
    · split at h
      · simp only [Option.some.injEq] at h
        split at h
        · cases h
        · cases h
          exact hall
      · split at h
        · split at h
          · simp at h
          · exact ih _ _ _ _ _ hall h
          · refine ih _ _ _ _ _ ?_ h
            intro e he
            rcases List.mem_append.mp he with hmem | hmem
            · exact hall e hmem
            · simp only [List.mem_singleton] at hmem
              subst hmem
              exact parse_page_styles_error_clean _ _ _ _ (by assumption)
        · split at h
          · split at h
            · simp at h
            · exact ih _ _ _ _ _ hall h
            · refine ih _ _ _ _ _ ?_ h
              intro e he
              rcases List.mem_append.mp he with hmem | hmem
              · exact hall e hmem
              · simp only [List.mem_singleton] at hmem
                subst hmem
                exact (item_mutual_error_clean fuel).1 _ _ _ (by assumption)
          · refine ih _ _ _ _ _ ?_ h
            intro e he
            rcases List.mem_append.mp he with hmem | hmem
            · exact hall e hmem
            · simp only [List.mem_singleton] at hmem
              subst hmem
              rfl


theorem consume_of_nextToken_ok {sc sc1 : Scanner} {tok : Token} (kind : TokenKind)
    (hn : nextToken sc = (.ok tok, sc1)) (hk : tok.kind = kind) :
    consume sc kind = (.ok tok, sc1) := by
  unfold consume
  rw [hn]
  dsimp only
  rw [if_pos hk]

theorem consume_err_of_nextToken_ok {sc sc1 : Scanner} {tok : Token} (kind : TokenKind)
    (hn : nextToken sc = (.ok tok, sc1)) (hk : ¬ tok.kind = kind) :
    consume sc kind =
      (.error (FroggiError.parse (.UnexpectedToken kind tok.cloneLexeme) tok.line), sc1) := by
  unfold consume
  rw [hn]
  dsimp only
  rw [if_neg hk]

theorem consume_ok_dest {sc sc' : Scanner} {tok : Token} {kind : TokenKind}
    (h : consume sc kind = (.ok tok, sc')) :
    nextToken sc = (.ok tok, sc') ∧ tok.kind = kind := by
  unfold consume at h
  rcases hn : nextToken sc with ⟨res, sc1⟩
  rw [hn] at h
  cases res with
  | error e0 => simp at h
  | ok token =>
    dsimp only at h
    by_cases hk : token.kind = kind
    · rw [if_pos hk] at h
      simp only [Prod.mk.injEq, Except.ok.injEq] at h
      obtain ⟨h1, h2⟩ := h
      subst h1
      subst h2
      exact ⟨rfl, hk⟩
    · rw [if_neg hk] at h
      simp at h

theorem peekToken_eq_of_nextToken {sc sc1 : Scanner} {res : Except FroggiError Token}
    (hn : nextToken sc = (res, sc1)) : peekToken sc = res := by
  unfold peekToken
  rw [hn]

theorem collect_text_loop_strings :
    ∀ (fuel : Nat) (sc : Scanner) (acc text : List Token) (sc' : Scanner),
      (∀ tok ∈ acc, tok.kind = .String) →
      collect_text_loop fuel sc acc = some (.ok text, sc') →
      ∀ tok ∈ text, tok.kind = .String := by
  intro fuel
  induction fuel with
  | zero => intro sc acc text sc' hacc h; simp [collect_text_loop] at h
  | succ fuel ih =>
    intro sc acc text sc' hacc h
    rw [collect_text_loop] at h
    split at h
    · simp at h
    · split at h
      · simp only [Option.some.injEq, Prod.mk.injEq] at h
        obtain ⟨h1, -⟩ := h
        cases h1
        exact hacc
      · split at h
        · simp at h
        · refine ih _ _ _ _ ?_ h
          intro tok htok
          rcases List.mem_append.mp htok with hmem | hmem
          · exact hacc tok hmem
          · simp only [List.mem_singleton] at hmem
            subst hmem
            rename_i heqC
            exact (consume_ok_dest heqC).2


/-- C5.  Anchor items: parsing `(# "sec1")` yields exactly one `PageItem`
whose payload is `Anchor` carrying the String token as the name and whose
inline-style list is empty; and in general, after `( # "name"`, any next
token other than the closing `)` makes `parse_item` fail with an
`UnexpectedToken` error (so an anchor body is exactly one String and no
inline-style block is accepted). -/
theorem claim_c5_anchor :
    (parse ("(# \"sec1\")") = some (.ok ⟨[], [PageItem.mk ⟨.Anchor, 1, "#"⟩ []
      (.Anchor ⟨.String, 1, "\"sec1\""⟩)]⟩)) ∧
    (∀ (fuel : Nat) (sc0 sc1 sc2 sc3 sc4 : Scanner) (lp a s t : Token),
      nextToken sc0 = (.ok lp, sc1) → lp.kind = .LeftParen →
      nextToken sc1 = (.ok a, sc2) → a.kind = .Anchor →
      nextToken sc2 = (.ok s, sc3) → s.kind = .String →
      nextToken sc3 = (.ok t, sc4) → ¬ t.kind = .RightParen →
      parse_item (fuel + 1) sc0 =
        some (.error ((FroggiError.parse (.UnexpectedToken .RightParen t.cloneLexeme)
          t.line).addMsg ("unbalanced parens starting on line " ++ toString lp.line)), sc4)) := by
  constructor
  · rfl
  · intro fuel sc0 sc1 sc2 sc3 sc4 lp a s t h0 hlp h1 ha h2 hs h3 ht
    rw [parse_item, consume_of_nextToken_ok .LeftParen h0 hlp]
    dsimp only
    rw [peekToken_eq_of_nextToken h1]
    dsimp only
    rw [if_neg (by rw [ha]; decide), if_neg (by rw [ha]; decide), if_pos ha]
    unfold parse_anchor
    rw [consume_of_nextToken_ok .Anchor h1 ha]
    dsimp only
    rw [consume_of_nextToken_ok .String h2 hs]
    dsimp only
    rw [consume_err_of_nextToken_ok .RightParen h3 ht]


/-- C8.  Implicit text: whenever the first token after `(` is none of the
recognized builtins Blob, Link, Anchor, Text, VBox, Box, a successful
`parse_item` returns a Text item whose builtin token has kind
`ImplicitText`, the peeked token's line, and an empty lexeme, and whose
text consists of String tokens only. -/
theorem claim_c8_implicit_text :
    ∀ (fuel : Nat) (sc0 sc1 : Scanner) (lp t : Token) (item : PageItem) (sc' : Scanner),
      nextToken sc0 = (.ok lp, sc1) → lp.kind = .LeftParen →
      peekToken sc1 = .ok t →
      ¬ t.kind = .Blob → ¬ t.kind = .Link → ¬ t.kind = .Anchor → ¬ t.kind = .Text →
      ¬ t.kind = .VBox → ¬ t.kind = .Box →
      parse_item (fuel + 1) sc0 = some (.ok item, sc') →
      item.builtin = ⟨.ImplicitText, t.line, ""⟩ ∧
      ∃ text : List Token, item.payload = .Text text ∧
        ∀ tok ∈ text, tok.kind = .String := by
  intro fuel sc0 sc1 lp t item sc' h0 hlp hp hb hl ha htx hv hbx hitem
  rw [parse_item, consume_of_nextToken_ok .LeftParen h0 hlp] at hitem
  dsimp only at hitem
  rw [hp] at hitem
  dsimp only at hitem
  rw [if_neg hb, if_neg hl, if_neg ha, if_neg htx, if_neg hv, if_neg hbx] at hitem
  rcases hI : parse_implicit_text fuel sc1 with _ | ⟨res, sc2⟩
  · rw [hI] at hitem
    simp at hitem
  · rw [hI] at hitem
    cases res with
    | error e0 => simp at hitem
    | ok item0 =>
      dsimp only at hitem
      rcases hR : consume sc2 .RightParen with ⟨resR, sc3⟩
      rw [hR] at hitem
      cases resR with
      | error e1 => simp at hitem
      | ok rp =>
        simp only [Option.some.injEq, Prod.mk.injEq, Except.ok.injEq] at hitem
        obtain ⟨h4, -⟩ := hitem
        subst h4
        unfold parse_implicit_text at hI
        rw [hp] at hI
        rcases hSt : parse_inline_styles fuel sc1 with _ | ⟨resS, scA⟩
        · rw [hSt] at hI; simp at hI
        · rw [hSt] at hI
          cases resS with
          | error e2 => simp at hI
          | ok styles =>
            dsimp only at hI
            rcases hCt : collect_text fuel scA with _ | ⟨resC, scB⟩
            · rw [hCt] at hI; simp at hI
            · rw [hCt] at hI
              cases resC with
              | error e3 => simp at hI
              | ok text =>
                simp only [Option.some.injEq, Prod.mk.injEq, Except.ok.injEq] at hI
                obtain ⟨h5, -⟩ := hI
                subst h5
                refine ⟨rfl, text, rfl, ?_⟩
                exact collect_text_loop_strings fuel scA [] text scB
                  (fun tok htok => absurd htok (List.not_mem_nil tok)) hCt

/-- C10.  Empty input: `parse` applied to any source whose first token is
`End` (in particular the empty string or whitespace-only sources) returns
`Ok` with a page whose page-style list and item list are both empty,
emitting no diagnostic. -/
theorem claim_c10_empty :
    ∀ (data : String) (t : Token),
      peekToken (Scanner.new data) = .ok t → t.kind = .End →
      parse data = some (.ok ⟨[], []⟩) := by
  intro data t hpk hEnd
  show parse_loop (4 * data.length + 3 + 1) (Scanner.new data) [] [] [] =
    some (.ok ⟨[], []⟩)
  rw [parse_loop, hpk]
  dsimp only
  rw [if_pos hEnd]
  rfl


/-- The top-level loop of `parse` agrees step for step with its
instrumented twin `parse_run_loop`. -/
theorem parse_loop_eq_run : ∀ (fuel : Nat) (sc : Scanner) (errors : List FroggiError)
    (ps : List PageStyle) (items : List PageItem),
    parse_loop fuel sc errors ps items =
      (parse_run_loop fuel sc errors ps items).map runOutcome := by
  intro fuel
  induction fuel with
  | zero => intro sc errors ps items; rfl
  | succ fuel ih =>
    intro sc errors ps items
    rw [parse_loop, parse_run_loop]
    cases hpk : peekToken sc with
    | error e => simp [runOutcome]
    | ok t =>
      by_cases hEnd : t.kind = .End
      · simp [hEnd, runOutcome]
      · simp only [if_neg hEnd]
        by_cases hBrace : t.kind = .LeftBrace ∧ ps.isEmpty
        · simp only [if_pos hBrace]
          cases hps : parse_page_styles fuel sc with
          | none => rfl
          | some v =>
            obtain ⟨r, sc2⟩ := v
            cases r with
            | ok styles => simpa using ih sc2 errors styles items
            | error e => simpa using ih sc2 (errors ++ [e]) ps items
        · simp only [if_neg hBrace]
          by_cases hParen : t.kind = .LeftParen
          · simp only [if_pos hParen]
            cases hit : parse_item fuel sc with
            | none => rfl
            | some v =>
              obtain ⟨r, sc2⟩ := v
              cases r with
              | ok item => simpa using ih sc2 errors ps (items ++ [item])
              | error e => simpa using ih sc2 (errors ++ [e]) ps items
          · simp only [if_neg hParen]
            exact ih _ _ _ _

/-- C4 (amended).  `parse`'s outcome is determined by the instrumented run:
`parse` returns `Ok(Page)` exactly when no diagnostic was collected and no
scanner error reached a top-level `peek_token`/`next_token`; when
diagnostics were collected and no scanner error aborted the loop, `parse`
returns `Err` with exactly the collected list; a top-level scanner error
makes `parse` return `Err` containing only that error, discarding any
previously collected diagnostics. -/
theorem claim_c4_diagnostics :
    (∀ data : String, parse data = (parse_run data).map runOutcome) ∧
    (∀ (data : String) (r : ParseRun), parse_run data = some r → r.abort = none →
      r.collected = [] → parse data = some (.ok ⟨r.page_styles, r.items⟩)) ∧
    (∀ (data : String) (r : ParseRun), parse_run data = some r → r.abort = none →
      ¬ r.collected = [] → parse data = some (.error r.collected)) ∧
    (∀ (data : String) (r : ParseRun) (e : FroggiError), parse_run data = some r →
      r.abort = some e → parse data = some (.error [e])) ∧
    (∀ (data : String) (page : Page), parse data = some (.ok page) →
      ∃ r : ParseRun, parse_run data = some r ∧ r.abort = none ∧ r.collected = []) := by
  have hrel : ∀ data : String, parse data = (parse_run data).map runOutcome :=
    fun data => parse_loop_eq_run (parseFuel data) (Scanner.new data) [] [] []
  refine ⟨hrel, ?_, ?_, ?_, ?_⟩
  · intro data r hr hab hcol
    rw [hrel, hr]
    simp [runOutcome, hab, hcol]
  · intro data r hr hab hcol
    rw [hrel, hr]
    simp only [Option.map_some', runOutcome, hab]
    rw [if_neg (by simpa [List.isEmpty_iff] using hcol)]
  · intro data r e hr hab
    rw [hrel, hr]
    simp [runOutcome, hab]
  · intro data page hp
    rw [hrel] at hp
    rcases hrun : parse_run data with _ | r
    · rw [hrun] at hp
      simp at hp
    · rw [hrun] at hp
      simp only [Option.map_some', Option.some.injEq] at hp
      unfold runOutcome at hp
      rcases hab : r.abort with _ | e
      · rw [hab] at hp
        by_cases hcol : r.collected.isEmpty
        · exact ⟨r, rfl, hab, List.isEmpty_iff.mp hcol⟩
        · rw [if_neg hcol] at hp
          simp at hp
      · rw [hab] at hp
        simp at hp

/-- Witness for C4 at the empty source. -/
theorem claim_c4_diagnostics_witness :
    parse_run ("") = some ⟨none, [], [], []⟩ ∧
    parse ("") = some (.ok ⟨[], []⟩) :=
  ⟨rfl, claim_c4_diagnostics.2.1 ("") ⟨none, [], [], []⟩ rfl rfl rfl⟩

/-- Counterexample to C4 as stated: on the source consisting of a stray
identifier followed by an unterminated string, an `ExpectedItem` diagnostic
is collected, yet `parse` returns an error list containing only the
`UnterminatedString` scan error, not the collected diagnostics. -/
theorem claim_c4_counterexample :
    parse ("] \"abc") = some (.error [⟨.ScanError (.UnterminatedString 1) 1, none⟩]) ∧
    parse_run ("] \"abc") = some ⟨some ⟨.ScanError (.UnterminatedString 1) 1, none⟩,
      [⟨.ParseError (.ExpectedItem "]") 1, none⟩], [], []⟩ ∧
    ¬ [FroggiError.mk (.ScanError (.UnterminatedString 1) 1) none] =
      [FroggiError.mk (.ParseError (.ExpectedItem "]") 1) none] :=
  ⟨rfl, rfl, by decide⟩

/-- C6 (amended).  A `\x7b` at top level is reported as an `ExpectedItem`
diagnostic precisely when the accumulated page-style list is non-empty:
the loop pushes the diagnostic and consumes the token.  (When every earlier
block produced an empty style list, a later block is parsed as the
page-style block instead, and position relative to items is not checked.) -/
theorem claim_c6_duplicate_block :
    ∀ (fuel : Nat) (sc : Scanner) (errors : List FroggiError) (ps : List PageStyle)
      (items : List PageItem) (t : Token),
      peekToken sc = .ok t → t.kind = .LeftBrace → ¬ ps = [] →
      parse_loop (fuel + 1) sc errors ps items =
        parse_loop fuel (nextToken sc).2
          (errors ++ [FroggiError.parse (.ExpectedItem t.cloneLexeme) t.line])
          ps items := by
  intro fuel sc errors ps items t hpk hkind hps
  rw [parse_loop, hpk]
  dsimp only
  rw [if_neg (by rw [hkind]; decide)]
  rw [if_neg (fun hand => hps (List.isEmpty_iff.mp hand.2))]
  rw [if_neg (by rw [hkind]; decide)]

/-- Witness for C6: a second page-style block after a non-empty accumulated
style list is reported as `ExpectedItem`. -/
theorem claim_c6_duplicate_block_witness :
    peekToken (Scanner.new ("\x7b")) = .ok ⟨.LeftBrace, 1, "\x7b"⟩ ∧
    (¬ ([PageStyle.mk ⟨.Identifier, 1, "a"⟩ []] : List PageStyle) = []) ∧
    parse_loop 4 (Scanner.new ("\x7b")) [] [PageStyle.mk ⟨.Identifier, 1, "a"⟩ []] [] =
      parse_loop 3 (nextToken (Scanner.new ("\x7b"))).2
        ([] ++ [FroggiError.parse (.ExpectedItem "\x7b") 1])
        [PageStyle.mk ⟨.Identifier, 1, "a"⟩ []] [] :=
  ⟨rfl, by decide,
    claim_c6_duplicate_block 3 _ _ _ _ ⟨.LeftBrace, 1, "\x7b"⟩ rfl rfl (by decide)⟩

/-- Counterexample to C6 as stated: a source with two top-level page-style
blocks where the first is empty parses cleanly — the second block is
accepted as the page styles and no `ExpectedItem` diagnostic is reported. -/
theorem claim_c6_counterexample :
    parse ("\x7b\x7d\x7b(a serif)\x7d") =
      some (.ok ⟨[⟨⟨.Identifier, 1, "a"⟩, [.WithoutArg ⟨⟨.Identifier, 1, "serif"⟩⟩]⟩], []⟩) :=
  rfl

/-- C7 (amended).  A bare identifier in an inline-style list is recorded
verbatim as a `WithoutArg` style; `parse` performs no selector resolution
and never emits an `UnknownStyle` diagnostic: no error in any result of
`parse` is `UnknownStyle`. -/
theorem claim_c7_no_unknown_style :
    ∀ (data : String) (es : List FroggiError),
      parse data = some (.error es) →
      ∀ e ∈ es, ∀ (s : String) (line : Nat),
        ¬ e.error = .ParseError (.UnknownStyle s) line := by
  intro data es h e he s line hcontra
  have hclean : e.unknownStyleB = false :=
    parse_loop_errors_clean (parseFuel data) (Scanner.new data) [] [] [] es
      (fun e' h' => absurd h' (List.not_mem_nil e')) h e he
  unfold FroggiError.unknownStyleB at hclean
  rw [hcontra] at hclean
  simp at hclean

/-- Witness for C7 on a source that does produce diagnostics. -/
theorem claim_c7_no_unknown_style_witness :
    parse ("]") = some (.error [⟨.ParseError (.ExpectedItem "]") 1, none⟩]) ∧
    ∀ e ∈ [FroggiError.mk (.ParseError (.ExpectedItem "]") 1) none],
      ∀ (s : String) (line : Nat), ¬ e.error = .ParseError (.UnknownStyle s) line :=
  ⟨rfl, claim_c7_no_unknown_style ("]") _ rfl⟩

/-- Counterexample to C7 as stated: `zzz` is not a built-in nullary style
and matches no selector (there are no page styles at all), yet `parse`
succeeds with no `UnknownStyle` diagnostic, recording the identifier as a
`WithoutArg` inline style. -/
theorem claim_c7_counterexample :
    parse ("(* \x7bzzz\x7d \"x\")") = some (.ok ⟨[], [PageItem.mk ⟨.Text, 1, "*"⟩
      [.WithoutArg ⟨⟨.Identifier, 1, "zzz"⟩⟩] (.Text [⟨.String, 1, "\"x\""⟩])]⟩) :=
  rfl

/-- Witness for C5's universally quantified part on `(# "a" $)`. -/
theorem claim_c5_anchor_witness :
    nextToken (Scanner.new ("(# \"a\" $)")) =
      (.ok ⟨.LeftParen, 1, "("⟩, ⟨("# \"a\" $)").data, 1⟩) ∧
    nextToken ⟨("# \"a\" $)").data, 1⟩ = (.ok ⟨.Anchor, 1, "#"⟩, ⟨(" \"a\" $)").data, 1⟩) ∧
    nextToken ⟨(" \"a\" $)").data, 1⟩ = (.ok ⟨.String, 1, "\"a\""⟩, ⟨(" $)").data, 1⟩) ∧
    nextToken ⟨(" $)").data, 1⟩ = (.ok ⟨.Box, 1, "$"⟩, ⟨(")").data, 1⟩) ∧
    parse_item 5 (Scanner.new ("(# \"a\" $)")) =
      some (.error ((FroggiError.parse (.UnexpectedToken .RightParen "$") 1).addMsg
        ("unbalanced parens starting on line " ++ toString 1)), ⟨(")").data, 1⟩) :=
  ⟨rfl, rfl, rfl, rfl,
    claim_c5_anchor.2 4 (Scanner.new ("(# \"a\" $)")) ⟨("# \"a\" $)").data, 1⟩
      ⟨(" \"a\" $)").data, 1⟩ ⟨(" $)").data, 1⟩ ⟨(")").data, 1⟩
      ⟨.LeftParen, 1, "("⟩ ⟨.Anchor, 1, "#"⟩ ⟨.String, 1, "\"a\""⟩ ⟨.Box, 1, "$"⟩
      rfl rfl rfl rfl rfl rfl rfl (by decide)⟩

/-- Witness for C8 on `("hi")`. -/
theorem claim_c8_implicit_text_witness :
    nextToken (Scanner.new ("(\"hi\")")) =
      (.ok ⟨.LeftParen, 1, "("⟩, ⟨("\"hi\")").data, 1⟩) ∧
    peekToken ⟨("\"hi\")").data, 1⟩ = .ok ⟨.String, 1, "\"hi\""⟩ ∧
    parse_item 5 (Scanner.new ("(\"hi\")")) =
      some (Except.ok (PageItem.mk ⟨.ImplicitText, 1, ""⟩ []
        (ItemPayload.Text [⟨.String, 1, "\"hi\""⟩])), ⟨[], 1⟩) ∧
    (PageItem.mk ⟨.ImplicitText, 1, ""⟩ []
        (ItemPayload.Text [⟨.String, 1, "\"hi\""⟩])).builtin = ⟨.ImplicitText, 1, ""⟩ ∧
    ∃ text : List Token,
      (PageItem.mk ⟨.ImplicitText, 1, ""⟩ []
        (ItemPayload.Text [⟨.String, 1, "\"hi\""⟩])).payload = .Text text ∧
      ∀ tok ∈ text, tok.kind = .String := by
  refine ⟨rfl, rfl, rfl, ?_⟩
  exact claim_c8_implicit_text 4 (Scanner.new ("(\"hi\")")) ⟨("\"hi\")").data, 1⟩
    ⟨.LeftParen, 1, "("⟩ ⟨.String, 1, "\"hi\""⟩ _ ⟨[], 1⟩
    rfl rfl rfl (by decide) (by decide) (by decide) (by decide) (by decide) (by decide) rfl

/-- Witness for C10 on a whitespace-only source. -/
theorem claim_c10_empty_witness :
    peekToken (Scanner.new ("  \n ")) = .ok ⟨.End, 2, ""⟩ ∧
    parse ("  \n ") = some (.ok ⟨[], []⟩) :=
  ⟨rfl, claim_c10_empty ("  \n ") ⟨.End, 2, ""⟩ rfl rfl⟩


theorem readBytes_exact (xs rest : List Nat) :
    readBytes xs.length (xs ++ rest) = .ok (xs, rest) := by
  unfold readBytes
  rw [if_pos (by simp)]
  rw [List.take_left, List.drop_left]

theorem serialize_four_length {n : Nat} {l : List Nat}
    (h : serialize_to_four_bytes n = some l) : l.length = 4 := by
  unfold serialize_to_four_bytes at h
  split at h
  · cases h; rfl
  · simp at h

theorem request_roundtrip_aux (path rest bs : List Nat)
    (hutf : utf8Valid path = true)
    (hto : Request.to_bytes ⟨FROGGI_VERSION, path⟩ = some bs) :
    Request.from_bytes (bs ++ rest) = .ok (⟨FROGGI_VERSION, path⟩, rest) := by
  unfold Request.to_bytes at hto
  rcases hser : serialize_to_bytes path.length with _ | ⟨lo, hi⟩
  · rw [hser] at hto
    simp at hto
  · rw [hser] at hto
    simp only [Option.map_some', Option.some.injEq] at hto
    subst hto
    show Request.from_bytes (FROGGI_VERSION :: ([lo, hi] ++ (path ++ rest))) = _
    unfold Request.from_bytes
    rw [show readByte (FROGGI_VERSION :: ([lo, hi] ++ (path ++ rest))) =
      .ok (FROGGI_VERSION, [lo, hi] ++ (path ++ rest)) from rfl]
    dsimp only
    rw [show readBytes 2 ([lo, hi] ++ (path ++ rest)) = .ok ([lo, hi], path ++ rest) from
      readBytes_exact [lo, hi] (path ++ rest)]
    dsimp only
    rw [deserialize_two_of_serialize path.length lo hi hser]
    dsimp only
    rw [readBytes_exact path rest]
    dsimp only
    rw [if_neg (by decide), if_neg (by rw [hutf]; decide)]


theorem itemTableEntry_shape {it : Item} {e : List Nat} (h : itemTableEntry it = some e) :
    ∃ pl4, serialize_to_four_bytes it.payload.length = some pl4 ∧
      e = it.name.length :: (it.name ++ pl4) := by
  unfold itemTableEntry at h
  split at h
  · rcases hser : serialize_to_four_bytes it.payload.length with _ | pl4
    · rw [hser] at h; simp at h
    · rw [hser] at h
      simp only [Option.map_some', Option.some.injEq] at h
      exact ⟨pl4, rfl, h.symm⟩
  · simp at h

theorem readItemTable_of_table :
    ∀ (items : List Item) (table rest : List Nat),
      itemTable items = some table →
      (∀ it ∈ items, utf8Valid it.name = true) →
      readItemTable items.length (table ++ rest) =
        .ok (items.map (fun it => (it.name, it.payload.length)), rest) := by
  intro items
  induction items with
  | nil =>
    intro table rest htab hutf
    simp only [itemTable, Option.some.injEq] at htab
    subst htab
    rfl
  | cons it tl ih =>
    intro table rest htab hutf
    unfold itemTable at htab
    rcases hent : itemTableEntry it with _ | e
    · rw [hent] at htab; simp at htab
    · rcases htl : itemTable tl with _ | t
      · rw [hent, htl] at htab; simp at htab
      · rw [hent, htl] at htab
        simp only [Option.some.injEq] at htab
        subst htab
        obtain ⟨pl4, hser, hshape⟩ := itemTableEntry_shape hent
        subst hshape
        show readItemTable (tl.length + 1)
          ((it.name.length :: (it.name ++ pl4)) ++ t ++ rest) = _
        unfold readItemTable
        rw [show ((it.name.length :: (it.name ++ pl4)) ++ t ++ rest) =
          it.name.length :: (it.name ++ (pl4 ++ (t ++ rest))) from by simp]
        rw [show readByte (it.name.length :: (it.name ++ (pl4 ++ (t ++ rest)))) =
          .ok (it.name.length, it.name ++ (pl4 ++ (t ++ rest))) from rfl]
        dsimp only
        rw [readBytes_exact it.name (pl4 ++ (t ++ rest))]
        dsimp only
        rw [if_neg (by rw [hutf it (List.mem_cons_self it tl)]; decide)]
        rw [show readBytes 4 (pl4 ++ (t ++ rest)) = .ok (pl4, t ++ rest) from by
          rw [show (4 : Nat) = pl4.length from (serialize_four_length hser).symm]
          exact readBytes_exact pl4 (t ++ rest)]
        dsimp only
        rw [deserialize_four_of_serialize it.payload.length pl4 hser]
        dsimp only
        rw [ih t rest htl (fun x hx => hutf x (List.mem_cons_of_mem it hx))]
        rfl

theorem readPayloads_of_items :
    ∀ (items : List Item) (rest : List Nat),
      readPayloads (items.map (fun it => (it.name, it.payload.length)))
        (payloadBytes items ++ rest) = .ok (items, rest) := by
  intro items
  induction items with
  | nil => intro rest; rfl
  | cons it tl ih =>
    intro rest
    show readPayloads ((it.name, it.payload.length) ::
      tl.map (fun x => (x.name, x.payload.length)))
      ((it.payload ++ payloadBytes tl) ++ rest) = _
    unfold readPayloads
    rw [show ((it.payload ++ payloadBytes tl) ++ rest) =
      it.payload ++ (payloadBytes tl ++ rest) from by simp]
    rw [readBytes_exact it.payload (payloadBytes tl ++ rest)]
    dsimp only
    rw [ih rest]

theorem itemTable_length :
    ∀ (items : List Item) (table : List Nat), itemTable items = some table →
      table.length = items.foldr (fun it acc => 1 + it.name.length + 4 + acc) 0 := by
  intro items
  induction items with
  | nil =>
    intro table htab
    simp only [itemTable, Option.some.injEq] at htab
    subst htab
    rfl
  | cons it tl ih =>
    intro table htab
    unfold itemTable at htab
    rcases hent : itemTableEntry it with _ | e
    · rw [hent] at htab; simp at htab
    · rcases htl : itemTable tl with _ | t
      · rw [hent, htl] at htab; simp at htab
      · rw [hent, htl] at htab
        simp only [Option.some.injEq] at htab
        subst htab
        obtain ⟨pl4, hser, hshape⟩ := itemTableEntry_shape hent
        subst hshape
        have hpl4 : pl4.length = 4 := serialize_four_length hser
        simp only [List.length_append, List.length_cons, List.foldr_cons, ih t htl, hpl4]
        omega

theorem payloadBytes_length :
    ∀ items : List Item,
      (payloadBytes items).length = items.foldr (fun it acc => it.payload.length + acc) 0 := by
  intro items
  induction items with
  | nil => rfl
  | cons it tl ih =>
    show (it.payload ++ payloadBytes tl).length = _
    simp only [List.length_append, ih, List.foldr_cons]


theorem response_roundtrip_aux (page : List Nat) (items : List Item) (rest bs : List Nat)
    (hpage : utf8Valid page = true)
    (hnames : ∀ it ∈ items, utf8Valid it.name = true)
    (hto : Response.to_bytes ⟨FROGGI_VERSION, page, items⟩ = some bs) :
    Response.from_bytes (bs ++ rest) = .ok (⟨FROGGI_VERSION, page, items⟩, rest) := by
  unfold Response.to_bytes at hto
  rcases hcnt : serialize_to_bytes items.length with _ | ⟨cntLo, cntHi⟩
  · rw [hcnt] at hto; simp at hto
  · rw [hcnt] at hto
    dsimp only at hto
    rcases htab : itemTable items with _ | table
    · rw [htab] at hto; simp at hto
    · rw [htab] at hto
      dsimp only at hto
      rcases hpl : serialize_to_four_bytes page.length with _ | pageLen4
      · rw [hpl] at hto; simp at hto
      · rw [hpl] at hto
        dsimp only at hto
        rcases htot : serialize_to_four_bytes
            (cntLo :: cntHi :: (table ++ pageLen4 ++ page ++ payloadBytes items)).length
            with _ | total4
        · rw [htot] at hto; simp at hto
        · rw [htot] at hto
          simp only [Option.some.injEq] at hto
          subst hto
          have harg : (FROGGI_VERSION :: (total4 ++
              cntLo :: cntHi :: (table ++ pageLen4 ++ page ++ payloadBytes items))) ++ rest =
              FROGGI_VERSION :: (total4 ++ ([cntLo, cntHi] ++
                (table ++ (pageLen4 ++ (page ++ (payloadBytes items ++ rest)))))) := by
            simp
          rw [harg]
          · unfold Response.from_bytes
            rw [show readByte (FROGGI_VERSION :: (total4 ++
              ([cntLo, cntHi] ++ (table ++ (pageLen4 ++ (page ++ (payloadBytes items ++ rest))))))) =
              .ok (FROGGI_VERSION, total4 ++
              ([cntLo, cntHi] ++ (table ++ (pageLen4 ++ (page ++ (payloadBytes items ++ rest))))))
              from rfl]
            dsimp only
            rw [show readBytes 4 (total4 ++
              ([cntLo, cntHi] ++ (table ++ (pageLen4 ++ (page ++ (payloadBytes items ++ rest)))))) =
              .ok (total4, [cntLo, cntHi] ++ (table ++ (pageLen4 ++ (page ++ (payloadBytes items ++ rest)))))
              from by
                rw [show (4 : Nat) = total4.length from (serialize_four_length htot).symm]
                exact readBytes_exact total4 _]
            dsimp only
            rw [deserialize_four_of_serialize _ total4 htot]
            dsimp only
            rw [show readBytes 2 ([cntLo, cntHi] ++
              (table ++ (pageLen4 ++ (page ++ (payloadBytes items ++ rest))))) =
              .ok ([cntLo, cntHi], table ++ (pageLen4 ++ (page ++ (payloadBytes items ++ rest))))
              from readBytes_exact [cntLo, cntHi] _]
            dsimp only
            rw [deserialize_two_of_serialize items.length cntLo cntHi hcnt]
            dsimp only
            rw [readItemTable_of_table items table _ htab hnames]
            dsimp only
            rw [show readBytes 4 (pageLen4 ++ (page ++ (payloadBytes items ++ rest))) =
              .ok (pageLen4, page ++ (payloadBytes items ++ rest)) from by
                rw [show (4 : Nat) = pageLen4.length from (serialize_four_length hpl).symm]
                exact readBytes_exact pageLen4 _]
            dsimp only
            rw [deserialize_four_of_serialize page.length pageLen4 hpl]
            dsimp only
            rw [readBytes_exact page (payloadBytes items ++ rest)]
            dsimp only
            rw [if_neg (by rw [hpage]; decide)]
            rw [readPayloads_of_items items rest]
            dsimp only
            rw [if_neg (by decide)]
            rw [if_neg (by
              simp only [declaredLength, List.foldr_map, List.length_cons, List.length_append,
                itemTable_length items table htab, payloadBytes_length items,
                serialize_four_length hpl]
              omega)]

/-- C3.  Wire round-trip (modelled from the spec, sections 4.2.1-4.2.2):
for every request with a valid UTF-8 path whose `to_bytes` succeeds (which
requires the path length to fit in 16 bits), and for every response built
from a page text and an item list whose `to_bytes` succeeds (names at most
255 bytes, all lengths in u32 range, item count in u16 range),
deserializing the serialized bytes yields back an equal value, field for
field, with item order preserved and trailing stream data untouched. -/
theorem claim_c3_wire_roundtrip :
    (∀ (path rest bs : List Nat), utf8Valid path = true →
      Request.to_bytes ⟨FROGGI_VERSION, path⟩ = some bs →
      Request.from_bytes (bs ++ rest) = .ok (⟨FROGGI_VERSION, path⟩, rest)) ∧
    (∀ (page : List Nat) (items : List Item) (rest bs : List Nat),
      utf8Valid page = true → (∀ it ∈ items, utf8Valid it.name = true) →
      Response.to_bytes ⟨FROGGI_VERSION, page, items⟩ = some bs →
      Response.from_bytes (bs ++ rest) = .ok (⟨FROGGI_VERSION, page, items⟩, rest)) :=
  ⟨fun path rest bs hutf hto => request_roundtrip_aux path rest bs hutf hto,
   fun page items rest bs hpage hnames hto =>
     response_roundtrip_aux page items rest bs hpage hnames hto⟩

/-- Witness for C3 on the spec's scenario S5 request (path `/`) and a
one-item response. -/
theorem claim_c3_wire_roundtrip_witness :
    (utf8Valid [47] = true ∧
      Request.to_bytes ⟨FROGGI_VERSION, [47]⟩ = some [0, 1, 0, 47] ∧
      Request.from_bytes ([0, 1, 0, 47] ++ []) = .ok (⟨FROGGI_VERSION, [47]⟩, [])) ∧
    (utf8Valid [104, 105] = true ∧
      Response.to_bytes ⟨FROGGI_VERSION, [104, 105], [Item.mk [97] [1, 2, 3]]⟩ =
        some [0, 17, 0, 0, 0, 1, 0, 1, 97, 3, 0, 0, 0, 2, 0, 0, 0, 104, 105, 1, 2, 3] ∧
      Response.from_bytes
        ([0, 17, 0, 0, 0, 1, 0, 1, 97, 3, 0, 0, 0, 2, 0, 0, 0, 104, 105, 1, 2, 3] ++ []) =
        .ok (⟨FROGGI_VERSION, [104, 105], [Item.mk [97] [1, 2, 3]]⟩, [])) :=
  ⟨⟨rfl, rfl, claim_c3_wire_roundtrip.1 [47] [] [0, 1, 0, 47] rfl rfl⟩,
   ⟨rfl, rfl, claim_c3_wire_roundtrip.2 [104, 105] [Item.mk [97] [1, 2, 3]] []
      [0, 17, 0, 0, 0, 1, 0, 1, 97, 3, 0, 0, 0, 2, 0, 0, 0, 104, 105, 1, 2, 3]
      rfl (by decide) rfl⟩⟩

end Froggi
